import Mathlib

/-!
Verification of the temporal buffering core of the StreamSelect repository
(`fall/utils.py` and `fall/adaptive_learning/buffer.py`).

Python floats used as timestamps, weights and relevance scores are embedded
as `Int` (the code only adds `1.0`, subtracts timeouts and compares, and the
`-1.0` sentinel and `int()` coercion are exact on integers).  Python objects
held by reference in several containers at once are embedded as heap
identifiers (`Nat`) indexing a heap `Nat → Observation`; mutating a shared
object is a heap update visible through every container holding its id.
-/

namespace StreamSelect

/-- `fall.utils.Observation`: a container class for a stored observation.
`x` is the feature mapping, `y` the optional label, `predictions` the
mapping `state_id → label` (a Python dict, embedded as an ordered
association list) and `active_state_relevance` the optional relevance. -/
structure Observation where
  x : List (String × Int)
  y : Option Int
  seen_at : Int
  active_state_id : Int
  sample_weight : Int
  predictions : List (Int × Int)
  active_state_relevance : Option Int
  is_stable : Bool
  deriving Repr, DecidableEq

/-- `Observation.__init__`: stores the five arguments and initializes
`predictions = {}`, `active_state_relevance = None`, `is_stable = False`. -/
def Observation.make (x : List (String × Int)) (y : Option Int) (seen_at : Int)
    (active_state_id : Int) (sample_weight : Int) : Observation :=
  { x := x
    y := y
    seen_at := seen_at
    active_state_id := active_state_id
    sample_weight := sample_weight
    predictions := []
    active_state_relevance := none
    is_stable := false }

/-- Lookup in the embedded Python dict: first entry with the given key. -/
def predLookup : List (Int × Int) → Int → Option Int
  | [], _ => none
  | (k', v) :: rest, k => if k' = k then some v else predLookup rest k

/-- Python dict assignment `m[k] = v`: replaces the value of an existing key
in place, otherwise appends the new entry (dicts keep insertion order). -/
def dictInsert (m : List (Int × Int)) (k v : Int) : List (Int × Int) :=
  if m.any (fun kv => kv.1 = k) then
    m.map (fun kv => if kv.1 = k then (k, v) else kv)
  else
    m ++ [(k, v)]

/-- `Observation.add_prediction`: `self.predictions[state_id] = p`. -/
def Observation.add_prediction (o : Observation) (p : Int) (state_id : Int) :
    Observation :=
  { o with predictions := dictInsert o.predictions state_id p }

/-- `Observation.add_active_state_relevance`: raises `ValueError` when the
passed `active_state_id` differs from the stored one, otherwise stores the
value.  Raising is embedded as `Except.error`; the observation is unchanged
in that case because no updated observation is produced. -/
def Observation.add_active_state_relevance (o : Observation)
    (active_state_relevance : Int) (active_state_id : Int) :
    Except String Observation :=
  if active_state_id ≠ o.active_state_id then
    .error ("Attempting to set active state relevance for wrong state "
      ++ toString active_state_id ++ ".")
  else
    .ok { o with active_state_relevance := some active_state_relevance }

/-- A drift detector as consumed by `fall.utils`: the dynamic `hasattr`
check for an `estimation` attribute is embedded as an `Option` field
(`none` = the concrete detector class has no such attribute). -/
structure DriftDetector where
  estimation : Option Int
  deriving Repr, DecidableEq

/-- `fall.utils.get_drift_detector_estimate`: returns `detector.estimation`
when the attribute exists, otherwise raises `ValueError`. -/
def get_drift_detector_estimate (detector : DriftDetector) : Except String Int :=
  match detector.estimation with
  | some e => .ok e
  | none =>
    .error "Cannot get estimate from detector. Either use a different detector or use the 'any' mode. "

/-- The last `n` elements of a list: the contents of a
`collections.deque(maxlen=n)` after appending the elements of `l` in order
(the oldest element is evicted on append once the deque is full). -/
def takeLastN (n : Nat) (l : List Nat) : List Nat :=
  l.drop (l.length - n)

/-- Appending one element to a `deque(maxlen=n)`. -/
def dequeAppend (n : Nat) (l : List Nat) (i : Nat) : List Nat :=
  takeLastN n (l ++ [i])

/-- Default heap value for unallocated ids. -/
def defaultObs : Observation :=
  Observation.make [] none 0 0 1

/-- `fall.adaptive_learning.buffer.ObservationBuffer`.  The three containers
hold heap ids; `heap`/`next_id` embed the Python object store so that the
same observation object shared by `buffer` and `active_window` is the same
id in both. -/
structure ObservationBuffer where
  window_size : Nat
  heap : Nat → Observation
  next_id : Nat
  buffer : List Nat
  active_window : List Nat
  stable_window : List Nat

/-- `ObservationBuffer.__init__(window_size)`. -/
def ObservationBuffer.init (window_size : Nat) : ObservationBuffer :=
  { window_size := window_size
    heap := fun _ => defaultObs
    next_id := 0
    buffer := []
    active_window := []
    stable_window := [] }

/-- The `while` loop of `release_buffer`: pop the front of `buf` while its
`seen_at ≤ stable_timestamp`, appending each popped id to the released list
and to `stable` (a `deque(maxlen=window_size)`).  Returns
`(released, remaining buffer, new stable_window)`. -/
def releaseAux (heap : Nat → Observation) (window_size : Nat)
    (stable_timestamp : Int) :
    List Nat → List Nat → List Nat × List Nat × List Nat
  | [], stable => ([], [], stable)
  | i :: rest, stable =>
    if (heap i).seen_at ≤ stable_timestamp then
      let r := releaseAux heap window_size stable_timestamp rest
        (dequeAppend window_size stable i)
      (i :: r.1, r.2.1, r.2.2)
    else
      ([], i :: rest, stable)

/-- `ObservationBuffer.release_buffer`: release and return all observations
from the front of the buffer older than `stable_timestamp`, appending each
to the stable window.  Returns the new buffer state and the released ids. -/
def ObservationBuffer.release_buffer (b : ObservationBuffer)
    (stable_timestamp : Int) : ObservationBuffer × List Nat :=
  let r := releaseAux b.heap b.window_size stable_timestamp b.buffer b.stable_window
  ({ b with buffer := r.2.1, stable_window := r.2.2 }, r.1)

/-- `ObservationBuffer.add_observation`: append the (freshly allocated)
observation to the active window and to the buffer, then release. -/
def ObservationBuffer.add_observation (b : ObservationBuffer)
    (observation : Observation) (stable_timestamp : Int) :
    ObservationBuffer × List Nat :=
  let i := b.next_id
  let b' : ObservationBuffer :=
    { b with
      heap := Function.update b.heap i observation
      next_id := i + 1
      active_window := dequeAppend b.window_size b.active_window i
      buffer := b.buffer ++ [i] }
  b'.release_buffer stable_timestamp

/-- `ObservationBuffer.buffer_data`: wrap the arguments in a new
`Observation` and call `add_observation`. -/
def ObservationBuffer.buffer_data (b : ObservationBuffer)
    (x : List (String × Int)) (y : Option Int) (current_timestamp : Int)
    (stable_timestamp : Int) (active_state_id : Int) (sample_weight : Int) :
    ObservationBuffer × List Nat :=
  b.add_observation (Observation.make x y current_timestamp active_state_id sample_weight)
    stable_timestamp

/-- The two relabeling `for` loops of `reset_on_drift`: set
`ob.active_state_id = new_active_state_id` on every observation reached
through the given ids (a heap mutation, visible through every container
sharing the id). -/
def relabelAll (heap : Nat → Observation) (ids : List Nat)
    (new_active_state_id : Int) : Nat → Observation :=
  ids.foldl
    (fun h i => Function.update h i { h i with active_state_id := new_active_state_id })
    heap

/-- `ObservationBuffer.reset_on_drift`: pop every observation with
`seen_at ≤ drift_timestep` from the front of each of the three containers,
then relabel the remaining observations of `stable_window` and `buffer` to
the new active state id (the loops run after the pruning, in that order). -/
def ObservationBuffer.reset_on_drift (b : ObservationBuffer)
    (new_active_state_id : Int) (drift_timestep : Int) : ObservationBuffer :=
  let old : Nat → Bool := fun i => decide ((b.heap i).seen_at ≤ drift_timestep)
  let buffer' := b.buffer.dropWhile old
  let active' := b.active_window.dropWhile old
  let stable' := b.stable_window.dropWhile old
  let heap1 := relabelAll b.heap stable' new_active_state_id
  let heap2 := relabelAll heap1 buffer' new_active_state_id
  { b with
    heap := heap2
    buffer := buffer'
    active_window := active'
    stable_window := stable' }

/-- `fall.adaptive_learning.buffer.SupervisedUnsupervisedBuffer`. -/
structure SupervisedUnsupervisedBuffer where
  window_size : Nat
  unsupervised_buffer_timeout : Int
  supervised_buffer_timeout : Int
  release_strategy : String
  keep_active_window_on_reset : Bool
  supervised_active_timestamp : Int
  unsupervised_active_timestamp : Int
  unsupervised_buffer : ObservationBuffer
  supervised_buffer : ObservationBuffer
  stable_unsupervised : List Nat
  stable_supervised : List Nat

/-- `SupervisedUnsupervisedBuffer.__init__`. -/
def SupervisedUnsupervisedBuffer.init (window_size : Nat)
    (unsupervised_buffer_timeout supervised_buffer_timeout : Int)
    (release_strategy : String) : SupervisedUnsupervisedBuffer :=
  { window_size := window_size
    unsupervised_buffer_timeout := unsupervised_buffer_timeout
    supervised_buffer_timeout := supervised_buffer_timeout
    release_strategy := release_strategy
    keep_active_window_on_reset := false
    supervised_active_timestamp := 0
    unsupervised_active_timestamp := 0
    unsupervised_buffer := ObservationBuffer.init window_size
    supervised_buffer := ObservationBuffer.init window_size
    stable_unsupervised := []
    stable_supervised := [] }

/-- `get_unsupervised_timestamps`: `(active, stable)` pair for the
unsupervised track; under the `"supervised"` strategy both come from the
supervised clock and timeout. -/
def SupervisedUnsupervisedBuffer.get_unsupervised_timestamps
    (s : SupervisedUnsupervisedBuffer) : Int × Int :=
  if s.release_strategy ∈ (["independent", "unsupervised"] : List String) then
    (s.unsupervised_active_timestamp,
      s.unsupervised_active_timestamp - s.unsupervised_buffer_timeout)
  else
    (s.supervised_active_timestamp,
      s.supervised_active_timestamp - s.supervised_buffer_timeout)

/-- `get_supervised_timestamps`. -/
def SupervisedUnsupervisedBuffer.get_supervised_timestamps
    (s : SupervisedUnsupervisedBuffer) : Int × Int :=
  if s.release_strategy ∈ (["independent", "supervised"] : List String) then
    (s.supervised_active_timestamp,
      s.supervised_active_timestamp - s.supervised_buffer_timeout)
  else
    (s.unsupervised_active_timestamp,
      s.unsupervised_active_timestamp - s.unsupervised_buffer_timeout)

/-- `buffer_unsupervised`: advance the unsupervised clock (by `+1` on the
`-1.0` sentinel, else jump to the given timestamp), buffer the observation
with `y = None`, accumulate the released ids into `stable_unsupervised`.
Returns the new state, the ids released by this call, and
`active_window[-1]` (the returned just-inserted observation). -/
def SupervisedUnsupervisedBuffer.buffer_unsupervised
    (s : SupervisedUnsupervisedBuffer) (x : List (String × Int))
    (active_state_id : Int) (current_timestamp : Int) (sample_weight : Int) :
    SupervisedUnsupervisedBuffer × List Nat × Option Nat :=
  let ts := if current_timestamp = -1 then s.unsupervised_active_timestamp + 1
            else current_timestamp
  let s1 := { s with unsupervised_active_timestamp := ts }
  let stable_timestamp := s1.get_unsupervised_timestamps.2
  let r := s1.unsupervised_buffer.buffer_data x none ts stable_timestamp
    active_state_id sample_weight
  let s2 := { s1 with
    unsupervised_buffer := r.1
    stable_unsupervised := s1.stable_unsupervised ++ r.2 }
  (s2, r.2, r.1.active_window.getLast?)

/-- `buffer_supervised`: symmetric, with `y` required. -/
def SupervisedUnsupervisedBuffer.buffer_supervised
    (s : SupervisedUnsupervisedBuffer) (x : List (String × Int)) (y : Int)
    (active_state_id : Int) (current_timestamp : Int) (sample_weight : Int) :
    SupervisedUnsupervisedBuffer × List Nat × Option Nat :=
  let ts := if current_timestamp = -1 then s.supervised_active_timestamp + 1
            else current_timestamp
  let s1 := { s with supervised_active_timestamp := ts }
  let stable_timestamp := s1.get_supervised_timestamps.2
  let r := s1.supervised_buffer.buffer_data x (some y) ts stable_timestamp
    active_state_id sample_weight
  let s2 := { s1 with
    supervised_buffer := r.1
    stable_supervised := s1.stable_supervised ++ r.2 }
  (s2, r.2, r.1.active_window.getLast?)

/-- `collect_stable_unsupervised`: force a release against the current
stable timestamp, return the accumulated list and clear it.  Also returns
the ids released by this very call (second component). -/
def SupervisedUnsupervisedBuffer.collect_stable_unsupervised
    (s : SupervisedUnsupervisedBuffer) :
    SupervisedUnsupervisedBuffer × List Nat × List Nat :=
  let stable_timestamp := s.get_unsupervised_timestamps.2
  let r := s.unsupervised_buffer.release_buffer stable_timestamp
  let collected := s.stable_unsupervised ++ r.2
  ({ s with unsupervised_buffer := r.1, stable_unsupervised := [] },
    collected, r.2)

/-- `collect_stable_supervised`. -/
def SupervisedUnsupervisedBuffer.collect_stable_supervised
    (s : SupervisedUnsupervisedBuffer) :
    SupervisedUnsupervisedBuffer × List Nat × List Nat :=
  let stable_timestamp := s.get_supervised_timestamps.2
  let r := s.supervised_buffer.release_buffer stable_timestamp
  let collected := s.stable_supervised ++ r.2
  ({ s with supervised_buffer := r.1, stable_supervised := [] },
    collected, r.2)

/-- Python `l[-m:] if m > 0 else []` used on the stable accumulation lists
by `SupervisedUnsupervisedBuffer.reset_on_drift`. -/
def truncLast (m : Int) (l : List Nat) : List Nat :=
  if 0 < m then takeLastN m.toNat l else []

/-- `SupervisedUnsupervisedBuffer.reset_on_drift`: per track compute the
effective drift timestep (`active_timestamp - valid_previous_observations`
when the argument is the `-1.0` sentinel), truncate the accumulated stable
list to its last `int(stable_timestamp - drift_timestep)` entries, then
delegate to the underlying `ObservationBuffer.reset_on_drift`. -/
def SupervisedUnsupervisedBuffer.reset_on_drift
    (s : SupervisedUnsupervisedBuffer) (next_active_state_id : Int)
    (drift_timestep : Int) : SupervisedUnsupervisedBuffer :=
  let valid_previous_observations : Int :=
    if s.keep_active_window_on_reset then (s.window_size : Int) else 0
  let u := s.get_unsupervised_timestamps
  let unsupervised_drift_timestep :=
    if drift_timestep = -1 then u.1 - valid_previous_observations
    else drift_timestep
  let stable_unsupervised' :=
    truncLast (u.2 - unsupervised_drift_timestep) s.stable_unsupervised
  let p := s.get_supervised_timestamps
  let supervised_drift_timestep :=
    if drift_timestep = -1 then p.1 - valid_previous_observations
    else drift_timestep
  let stable_supervised' :=
    truncLast (p.2 - supervised_drift_timestep) s.stable_supervised
  { s with
    stable_unsupervised := stable_unsupervised'
    stable_supervised := stable_supervised'
    unsupervised_buffer :=
      s.unsupervised_buffer.reset_on_drift next_active_state_id
        unsupervised_drift_timestep
    supervised_buffer :=
      s.supervised_buffer.reset_on_drift next_active_state_id
        supervised_drift_timestep }

/-- A call to an `ObservationBuffer`: either `add_observation obs t`
(with `t` the `stable_timestamp` argument) or `release_buffer t`. -/
inductive BufOp where
  | add (observation : Observation) (stable_timestamp : Int)
  | rel (stable_timestamp : Int)
  deriving Repr, DecidableEq

/-- One `ObservationBuffer` call; returns the new state and the released ids. -/
def stepB (b : ObservationBuffer) : BufOp → ObservationBuffer × List Nat
  | .add o t => b.add_observation o t
  | .rel t => b.release_buffer t

/-- A sequence of `ObservationBuffer` calls; the second component
concatenates the released ids of every call, in order. -/
def runB (b : ObservationBuffer) : List BufOp → ObservationBuffer × List Nat
  | [] => (b, [])
  | op :: ops =>
    let r1 := stepB b op
    let r2 := runB r1.1 ops
    (r2.1, r1.2 ++ r2.2)

/-- The observations inserted by a call sequence, in insertion order. -/
def insertedObs : List BufOp → List Observation
  | [] => []
  | .add o _ :: ops => o :: insertedObs ops
  | .rel _ :: ops => insertedObs ops

/-- The `stable_timestamp` argument of each call, in call order. -/
def opTimes : List BufOp → List Int
  | [] => []
  | .add _ t :: ops => t :: opTimes ops
  | .rel t :: ops => t :: opTimes ops

/-- Boolean test that a list of integers is non-decreasing. -/
def nondecreasing : List Int → Bool
  | [] => true
  | [_] => true
  | a :: b :: rest => a ≤ b && nondecreasing (b :: rest)

theorem chain'_le_iff_nondecreasing :
    ∀ l : List Int, List.Chain' (· ≤ ·) l ↔ nondecreasing l = true
  | [] => by simp [nondecreasing]
  | [a] => by simp [nondecreasing]
  | a :: b :: rest => by
    rw [List.chain'_cons]
    simp only [nondecreasing, Bool.and_eq_true, decide_eq_true_eq]
    exact and_congr Iff.rfl (chain'_le_iff_nondecreasing (b :: rest))

/-- The inserted observations have non-decreasing `seen_at`. -/
def SeenMono (ops : List BufOp) : Prop :=
  List.Chain' (· ≤ ·) ((insertedObs ops).map Observation.seen_at)

instance : DecidablePred SeenMono := fun ops =>
  decidable_of_iff _ (chain'_le_iff_nondecreasing
    ((insertedObs ops).map Observation.seen_at)).symm

/-- A call to a `SupervisedUnsupervisedBuffer`. -/
inductive SOp where
  | bufU (x : List (String × Int)) (active_state_id : Int)
      (current_timestamp : Int) (sample_weight : Int)
  | bufS (x : List (String × Int)) (y : Int) (active_state_id : Int)
      (current_timestamp : Int) (sample_weight : Int)
  | collectU
  | collectS
  | reset (next_active_state_id : Int) (drift_timestep : Int)
  deriving Repr, DecidableEq

/-- One `SupervisedUnsupervisedBuffer` call.  Returns the new state, the
unsupervised ids released by the call, each paired with the supervised
clock at the moment of release, and the output of a
`collect_stable_unsupervised` call (empty for the other calls). -/
def stepS (s : SupervisedUnsupervisedBuffer) :
    SOp → SupervisedUnsupervisedBuffer × List (Nat × Int) × List Nat
  | .bufU x sid ct w =>
    let r := s.buffer_unsupervised x sid ct w
    (r.1, r.2.1.map (fun i => (i, r.1.supervised_active_timestamp)), [])
  | .bufS x y sid ct w =>
    let r := s.buffer_supervised x y sid ct w
    (r.1, [], [])
  | .collectU =>
    let r := s.collect_stable_unsupervised
    (r.1, r.2.2.map (fun i => (i, r.1.supervised_active_timestamp)), r.2.1)
  | .collectS =>
    let r := s.collect_stable_supervised
    (r.1, [], [])
  | .reset nid d =>
    (s.reset_on_drift nid d, [], [])

/-- A sequence of `SupervisedUnsupervisedBuffer` calls, concatenating the
per-call release logs and the collected unsupervised outputs. -/
def runS (s : SupervisedUnsupervisedBuffer) :
    List SOp → SupervisedUnsupervisedBuffer × List (Nat × Int) × List Nat
  | [] => (s, [], [])
  | op :: ops =>
    let r1 := stepS s op
    let r2 := runS r1.1 ops
    (r2.1, r1.2.1 ++ r2.2.1, r1.2.2 ++ r2.2.2)

/-! ### Basic facts about the bounded-window (`deque(maxlen=n)`) model -/

theorem length_takeLastN_le (n : Nat) (l : List Nat) :
    (takeLastN n l).length ≤ n := by
  simp only [takeLastN, List.length_drop]
  omega

theorem takeLastN_eq_self {n : Nat} {l : List Nat} (h : l.length ≤ n) :
    takeLastN n l = l := by
  simp [takeLastN, Nat.sub_eq_zero_of_le h]

theorem takeLastN_cons {n : Nat} {l : List Nat} (a : Nat) (h : n ≤ l.length) :
    takeLastN n (a :: l) = takeLastN n l := by
  have hlen : (a :: l).length - n = (l.length - n) + 1 := by
    simp only [List.length_cons]
    omega
  show (a :: l).drop ((a :: l).length - n) = l.drop (l.length - n)
  rw [hlen, List.drop_succ_cons]

theorem takeLastN_suffix (n : Nat) (l : List Nat) : takeLastN n l <:+ l :=
  List.drop_suffix _ _

theorem takeLastN_append_takeLastN (n : Nat) (xs ys : List Nat) :
    takeLastN n (takeLastN n xs ++ ys) = takeLastN n (xs ++ ys) := by
  induction xs with
  | nil => simp [takeLastN]
  | cons a xs ih =>
    by_cases h : (a :: xs).length ≤ n
    · rw [takeLastN_eq_self h]
    · have hx : n ≤ xs.length := by
        simp only [List.length_cons] at h
        omega
      have hxy : n ≤ (xs ++ ys).length := by
        simp only [List.length_append]
        omega
      rw [takeLastN_cons a hx, ih, List.cons_append, takeLastN_cons a hxy]

theorem mem_takeLastN_append {n : Nat} {xs ys : List Nat} {x : Nat}
    (h : x ∈ takeLastN n (xs ++ ys)) : x ∈ takeLastN n xs ∨ x ∈ ys := by
  rw [← takeLastN_append_takeLastN] at h
  exact List.mem_append.mp ((takeLastN_suffix n _).subset h)

theorem foldl_dequeAppend (n : Nat) :
    ∀ (l s : List Nat), s.length ≤ n →
      l.foldl (dequeAppend n) s = takeLastN n (s ++ l)
  | [], s, h => by simp [takeLastN_eq_self h]
  | a :: l, s, h => by
    have h1 : (dequeAppend n s a).length ≤ n := length_takeLastN_le n _
    rw [List.foldl_cons, foldl_dequeAppend n l _ h1]
    show takeLastN n (takeLastN n (s ++ [a]) ++ l) = _
    rw [takeLastN_append_takeLastN, List.append_assoc]
    rfl

/-! ### The shape of `release_buffer` -/

theorem releaseAux_spec (heap : Nat → Observation) (ws : Nat) (t : Int) :
    ∀ (buf stable : List Nat),
      releaseAux heap ws t buf stable =
        (buf.takeWhile (fun i => decide ((heap i).seen_at ≤ t)),
          buf.dropWhile (fun i => decide ((heap i).seen_at ≤ t)),
          (buf.takeWhile (fun i => decide ((heap i).seen_at ≤ t))).foldl
            (dequeAppend ws) stable)
  | [], stable => rfl
  | i :: rest, stable => by
    have hspec := releaseAux_spec heap ws t rest (dequeAppend ws stable i)
    by_cases h : (heap i).seen_at ≤ t
    · simp [releaseAux, if_pos h, hspec, List.takeWhile_cons,
        List.dropWhile_cons, h]
    · simp [releaseAux, if_neg h, List.takeWhile_cons, List.dropWhile_cons, h]

theorem release_buffer_released (b : ObservationBuffer) (t : Int) :
    (b.release_buffer t).2 =
      b.buffer.takeWhile (fun i => decide ((b.heap i).seen_at ≤ t)) := by
  simp [ObservationBuffer.release_buffer, releaseAux_spec]

theorem release_buffer_state (b : ObservationBuffer) (t : Int) :
    (b.release_buffer t).1 =
      { b with
        buffer := b.buffer.dropWhile (fun i => decide ((b.heap i).seen_at ≤ t))
        stable_window :=
          (b.buffer.takeWhile (fun i => decide ((b.heap i).seen_at ≤ t))).foldl
            (dequeAppend b.window_size) b.stable_window } := by
  simp [ObservationBuffer.release_buffer, releaseAux_spec]

/-! ### Sorted id lists -/

/-- The id list `l` references observations with non-decreasing `seen_at`. -/
def SortedSeen (heap : Nat → Observation) (l : List Nat) : Prop :=
  List.Chain' (fun i j => (heap i).seen_at ≤ (heap j).seen_at) l

theorem SortedSeen.head_le {heap : Nat → Observation} {a x : Nat} :
    ∀ {l : List Nat}, SortedSeen heap (a :: l) → x ∈ l →
      (heap a).seen_at ≤ (heap x).seen_at
  | b :: l, hs, hx => by
    have h1 := (List.chain'_cons.mp hs).1
    have h2 := (List.chain'_cons.mp hs).2
    rcases List.mem_cons.mp hx with rfl | hx'
    · exact h1
    · exact le_trans h1 (SortedSeen.head_le h2 hx')

theorem SortedSeen.drop {heap : Nat → Observation} {l : List Nat}
    (h : SortedSeen heap l) (k : Nat) : SortedSeen heap (l.drop k) := by
  have h2 : List.Chain' (fun i j => (heap i).seen_at ≤ (heap j).seen_at)
      (l.take k ++ l.drop k) := by
    rw [List.take_append_drop]
    exact h
  exact (List.chain'_append.mp h2).2.1

theorem SortedSeen.take {heap : Nat → Observation} {l : List Nat}
    (h : SortedSeen heap l) (k : Nat) : SortedSeen heap (l.take k) := by
  have h2 : List.Chain' (fun i j => (heap i).seen_at ≤ (heap j).seen_at)
      (l.take k ++ l.drop k) := by
    rw [List.take_append_drop]
    exact h
  exact (List.chain'_append.mp h2).1

theorem mem_dropWhile_of_sorted {heap : Nat → Observation} {d : Int} {x : Nat} :
    ∀ {l : List Nat}, SortedSeen heap l →
      x ∈ l.dropWhile (fun i => decide ((heap i).seen_at ≤ d)) →
      d < (heap x).seen_at
  | [], _, hx => by simp at hx
  | a :: l, hs, hx => by
    by_cases h : (heap a).seen_at ≤ d
    · rw [List.dropWhile_cons, if_pos (by simpa using h)] at hx
      exact mem_dropWhile_of_sorted (List.Chain'.tail hs) hx
    · rw [List.dropWhile_cons, if_neg (by simpa using h)] at hx
      rcases List.mem_cons.mp hx with rfl | hx'
      · omega
      · have := SortedSeen.head_le hs hx'
        omega

theorem mem_dropWhile_of_not {p : Nat → Bool} {l : List Nat} {x : Nat}
    (hx : x ∈ l) (hp : p x = false) : x ∈ l.dropWhile p := by
  have hsplit : l.takeWhile p ++ l.dropWhile p = l :=
    List.takeWhile_append_dropWhile p l
  rw [← hsplit] at hx
  rcases List.mem_append.mp hx with h | h
  · have := List.mem_takeWhile_imp h
    rw [hp] at this
    exact absurd this (by simp)
  · exact h

/-! ### Relabeling through the heap -/

theorem relabelAll_not_mem {nid : Int} {i : Nat} :
    ∀ {ids : List Nat} (heap : Nat → Observation), i ∉ ids →
      relabelAll heap ids nid i = heap i
  | [], _, _ => rfl
  | a :: ids, heap, h => by
    have hne : i ≠ a := fun hia => h (hia ▸ List.mem_cons_self a ids)
    have hni : i ∉ ids := fun hi => h (List.mem_cons_of_mem a hi)
    show relabelAll (Function.update heap a _) ids nid i = heap i
    rw [relabelAll_not_mem _ hni, Function.update_noteq hne]

theorem relabelAll_mem {nid : Int} {i : Nat} :
    ∀ {ids : List Nat} (heap : Nat → Observation), i ∈ ids →
      (relabelAll heap ids nid i).active_state_id = nid
  | a :: ids, heap, h => by
    by_cases hi : i ∈ ids
    · show (relabelAll
          (Function.update heap a { heap a with active_state_id := nid })
          ids nid i).active_state_id = nid
      exact relabelAll_mem _ hi
    · have hia : i = a := by
        rcases List.mem_cons.mp h with h' | h'
        · exact h'
        · exact absurd h' hi
      subst hia
      show (relabelAll (Function.update heap i _) ids nid i).active_state_id = nid
      rw [relabelAll_not_mem _ hi, Function.update_same]

theorem relabelAll_seen_at {nid : Int} (i : Nat) :
    ∀ {ids : List Nat} (heap : Nat → Observation),
      (relabelAll heap ids nid i).seen_at = (heap i).seen_at
  | [], _ => rfl
  | a :: ids, heap => by
    show (relabelAll (Function.update heap a _) ids nid i).seen_at = _
    rw [relabelAll_seen_at i]
    by_cases hia : i = a
    · subst hia
      rw [Function.update_same]
    · rw [Function.update_noteq hia]

theorem relabelAll_is_stable {nid : Int} (i : Nat) :
    ∀ {ids : List Nat} (heap : Nat → Observation),
      (relabelAll heap ids nid i).is_stable = (heap i).is_stable
  | [], _ => rfl
  | a :: ids, heap => by
    show (relabelAll (Function.update heap a _) ids nid i).is_stable = _
    rw [relabelAll_is_stable i]
    by_cases hia : i = a
    · subst hia
      rw [Function.update_same]
    · rw [Function.update_noteq hia]

/-! ### The canonical shape of a buffer reached by `add_observation` /
`release_buffer` calls: ids are allocated `0, 1, 2, …`, the first `k` of
them have been released, `buffer` holds the unreleased suffix, and the two
windows hold the last `window_size` inserted resp. released ids. -/

/-- The heap determined by the list of inserted observations. -/
def heapOf (obs : List Observation) : Nat → Observation :=
  fun i => obs.getD i defaultObs

def BufInv (ws : Nat) (obs : List Observation) (k : Nat)
    (b : ObservationBuffer) : Prop :=
  b.window_size = ws ∧
  b.next_id = obs.length ∧
  b.heap = heapOf obs ∧
  k ≤ obs.length ∧
  b.buffer = (List.range obs.length).drop k ∧
  b.active_window = takeLastN ws (List.range obs.length) ∧
  b.stable_window = takeLastN ws (List.range k)

theorem bufInv_init (ws : Nat) : BufInv ws [] 0 (ObservationBuffer.init ws) := by
  refine ⟨rfl, rfl, ?_, Nat.le_refl 0, rfl, ?_, ?_⟩
  · funext i
    rfl
  · show ([] : List Nat) = takeLastN ws (List.range 0)
    simp [takeLastN]
  · show ([] : List Nat) = takeLastN ws (List.range 0)
    simp [takeLastN]

theorem heapOf_snoc (obs : List Observation) (o : Observation) :
    Function.update (heapOf obs) obs.length o = heapOf (obs ++ [o]) := by
  funext i
  rcases Nat.lt_trichotomy i obs.length with h | h | h
  · rw [Function.update_noteq (Nat.ne_of_lt h)]
    show heapOf obs i = (obs ++ [o]).getD i defaultObs
    rw [List.getD_append _ _ _ _ h]
    rfl
  · subst h
    rw [Function.update_same]
    show o = (obs ++ [o]).getD obs.length defaultObs
    rw [List.getD_append_right _ _ _ _ (Nat.le_refl _), Nat.sub_self]
    rfl
  · rw [Function.update_noteq (Nat.ne_of_gt h)]
    show obs.getD i defaultObs = (obs ++ [o]).getD i defaultObs
    rw [List.getD_eq_default _ _ (Nat.le_of_lt h),
      List.getD_eq_default _ _ (by simp; omega)]

theorem dropWhile_eq_drop (p : Nat → Bool) (l : List Nat) :
    l.dropWhile p = l.drop (l.takeWhile p).length := by
  have h : l.drop (l.takeWhile p).length =
      (l.takeWhile p ++ l.dropWhile p).drop (l.takeWhile p).length := by
    rw [List.takeWhile_append_dropWhile]
  rw [h, List.drop_left]

theorem release_step {ws : Nat} {obs : List Observation} {k : Nat}
    {b : ObservationBuffer} (hInv : BufInv ws obs k b) (t : Int) :
    BufInv ws obs (k + (b.release_buffer t).2.length) (b.release_buffer t).1 ∧
    List.range k ++ (b.release_buffer t).2 =
      List.range (k + (b.release_buffer t).2.length) := by
  obtain ⟨hws, hnext, hheap, hk, hbuf, haw, hst⟩ := hInv
  set n := obs.length with hn
  set p : Nat → Bool := fun i => decide ((b.heap i).seen_at ≤ t) with hp
  have hstate := release_buffer_state b t
  have hbuf' : (b.release_buffer t).1.buffer = b.buffer.dropWhile p := by
    rw [hstate]
  have hst' : (b.release_buffer t).1.stable_window =
      (b.buffer.takeWhile p).foldl (dequeAppend b.window_size)
        b.stable_window := by
    rw [hstate]
  have hws' : (b.release_buffer t).1.window_size = b.window_size := by
    rw [hstate]
  have hnext' : (b.release_buffer t).1.next_id = b.next_id := by
    rw [hstate]
  have hheap' : (b.release_buffer t).1.heap = b.heap := by
    rw [hstate]
  have haw' : (b.release_buffer t).1.active_window = b.active_window := by
    rw [hstate]
  have hrel : (b.release_buffer t).2 = ((List.range n).drop k).takeWhile p := by
    rw [release_buffer_released, hbuf]
  set j := (b.release_buffer t).2.length with hj
  have hjlen : j = (((List.range n).drop k).takeWhile p).length := by
    rw [hj, hrel]
  have hjle : j ≤ n - k := by
    rw [hjlen]
    calc (((List.range n).drop k).takeWhile p).length
        ≤ ((List.range n).drop k).length := (List.takeWhile_prefix p).length_le
      _ = n - k := by simp
  have hkj : k + j ≤ n := by omega
  have htake : ((List.range n).drop k).takeWhile p =
      ((List.range n).drop k).take j := by
    rw [hjlen]
    exact List.prefix_iff_eq_take.mp (List.takeWhile_prefix p)
  have key1 : List.range k ++ (b.release_buffer t).2 = List.range (k + j) := by
    rw [hrel, htake]
    have h1 : List.range k = (List.range n).take k := by
      rw [List.take_range, Nat.min_eq_left hk]
    have h2 : List.range (k + j) = (List.range n).take (k + j) := by
      rw [List.take_range, Nat.min_eq_left hkj]
    rw [h1, h2, List.take_add]
  have key2 : (b.release_buffer t).1.buffer = (List.range n).drop (k + j) := by
    rw [hbuf', hbuf, dropWhile_eq_drop, ← hjlen, List.drop_drop]
  have key3 : (b.release_buffer t).1.stable_window =
      takeLastN ws (List.range (k + j)) := by
    rw [hst', hbuf, hst, hws, ← hrel,
      foldl_dequeAppend ws _ _ (length_takeLastN_le ws _),
      takeLastN_append_takeLastN, key1]
  exact ⟨⟨hws'.trans hws, hnext'.trans hnext, hheap'.trans hheap, hkj, key2,
    haw'.trans haw, key3⟩, key1⟩

theorem add_intermediate {ws : Nat} {obs : List Observation} {k : Nat}
    {b : ObservationBuffer} (hInv : BufInv ws obs k b) (o : Observation) :
    BufInv ws (obs ++ [o]) k
      { b with
        heap := Function.update b.heap b.next_id o
        next_id := b.next_id + 1
        active_window := dequeAppend b.window_size b.active_window b.next_id
        buffer := b.buffer ++ [b.next_id] } := by
  obtain ⟨hws, hnext, hheap, hk, hbuf, haw, hst⟩ := hInv
  set n := obs.length with hn
  refine ⟨hws, by simp [hnext], ?_, ?_, ?_, ?_, by simp [hst]⟩
  · show Function.update b.heap b.next_id o = _
    rw [hheap, hnext, heapOf_snoc]
  · simp only [List.length_append, List.length_cons, List.length_nil]
    omega
  · show b.buffer ++ [b.next_id] = _
    rw [hbuf, hnext]
    have hlen : (obs ++ [o]).length = n + 1 := by simp
    rw [hlen, List.range_succ, List.drop_append_eq_append_drop,
      Nat.sub_eq_zero_of_le (by simpa using hk), List.drop_zero]
  · show dequeAppend b.window_size b.active_window b.next_id = _
    have hlen : (obs ++ [o]).length = n + 1 := by simp
    rw [haw, hnext, hws, hlen, List.range_succ]
    show takeLastN ws (takeLastN ws (List.range n) ++ [n]) = _
    rw [takeLastN_append_takeLastN]

theorem add_step {ws : Nat} {obs : List Observation} {k : Nat}
    {b : ObservationBuffer} (hInv : BufInv ws obs k b) (o : Observation)
    (t : Int) :
    BufInv ws (obs ++ [o]) (k + (b.add_observation o t).2.length)
      (b.add_observation o t).1 ∧
    List.range k ++ (b.add_observation o t).2 =
      List.range (k + (b.add_observation o t).2.length) :=
  release_step (add_intermediate hInv o) t

theorem stepB_inv {ws : Nat} {obs : List Observation} {k : Nat}
    {b : ObservationBuffer} (hInv : BufInv ws obs k b) (op : BufOp) :
    BufInv ws (obs ++ insertedObs [op]) (k + (stepB b op).2.length)
      (stepB b op).1 ∧
    List.range k ++ (stepB b op).2 =
      List.range (k + (stepB b op).2.length) := by
  cases op with
  | add o t => exact add_step hInv o t
  | rel t =>
    have h := release_step hInv t
    simpa [insertedObs, stepB] using h

theorem runB_inv :
    ∀ (ops : List BufOp) {ws : Nat} {obs : List Observation} {k : Nat}
      {b : ObservationBuffer}, BufInv ws obs k b →
      BufInv ws (obs ++ insertedObs ops) (k + (runB b ops).2.length)
        (runB b ops).1 ∧
      List.range k ++ (runB b ops).2 =
        List.range (k + (runB b ops).2.length)
  | [], ws, obs, k, b, hInv => by
    simpa [runB, insertedObs] using hInv
  | op :: ops, ws, obs, k, b, hInv => by
    have h1 := stepB_inv hInv op
    have h2 := runB_inv ops h1.1
    have hobs : (obs ++ insertedObs [op]) ++ insertedObs ops =
        obs ++ insertedObs (op :: ops) := by
      cases op <;> simp [insertedObs]
    have hlen : (runB b (op :: ops)).2.length =
        (stepB b op).2.length + (runB (stepB b op).1 ops).2.length := by
      simp [runB]
    constructor
    · have := h2.1
      rw [hobs] at this
      show BufInv ws _ (k + (runB b (op :: ops)).2.length) (runB (stepB b op).1 ops).1
      rw [hlen, ← Nat.add_assoc]
      exact this
    · show List.range k ++ ((stepB b op).2 ++ (runB (stepB b op).1 ops).2) = _
      rw [← List.append_assoc, h1.2, h2.2, hlen, ← Nat.add_assoc]

theorem runB_init_inv (ws : Nat) (ops : List BufOp) :
    BufInv ws (insertedObs ops) (runB (ObservationBuffer.init ws) ops).2.length
      (runB (ObservationBuffer.init ws) ops).1 ∧
    (runB (ObservationBuffer.init ws) ops).2 =
      List.range (runB (ObservationBuffer.init ws) ops).2.length := by
  have h := runB_inv ops (bufInv_init ws)
  simpa using h

/-! ### Transferring sortedness from the inserted observations to id lists -/

theorem map_heapOf_range (obs : List Observation) :
    (List.range obs.length).map (heapOf obs) = obs := by
  apply List.ext_getElem (by simp)
  intro i h1 h2
  simp only [List.getElem_map, List.getElem_range]
  show obs.getD i defaultObs = obs[i]
  rw [List.getD_eq_getElem obs defaultObs h2]

theorem sortedSeen_range {obs : List Observation}
    (h : List.Chain' (· ≤ ·) (obs.map Observation.seen_at)) :
    SortedSeen (heapOf obs) (List.range obs.length) := by
  have h2 : List.Chain' (· ≤ ·)
      (((List.range obs.length).map (heapOf obs)).map Observation.seen_at) := by
    rw [map_heapOf_range]
    exact h
  rw [List.map_map] at h2
  exact (List.chain'_map _).mp h2

theorem takeLastN_eq_drop (n : Nat) (l : List Nat) :
    takeLastN n l = l.drop (l.length - n) := rfl

/-! ### Cumulative releases: after a call sequence with non-decreasing
`seen_at` and non-decreasing stable timestamps, exactly the prefix of
inserted observations with `seen_at ≤` the last timestamp has been
released. -/

theorem takeWhile_append_of_all {p : Observation → Bool} :
    ∀ {a : List Observation} (b : List Observation),
      (∀ x ∈ a, p x = true) → (a ++ b).takeWhile p = a ++ b.takeWhile p
  | [], b, _ => rfl
  | x :: a, b, h => by
    rw [List.cons_append, List.takeWhile_cons,
      if_pos (h x (List.mem_cons_self x a)),
      takeWhile_append_of_all b fun y hy => h y (List.mem_cons_of_mem x hy),
      List.cons_append]

theorem release_cum {ws : Nat} {obs : List Observation} {k : Nat}
    {b : ObservationBuffer} (hInv : BufInv ws obs k b) (t : Int)
    (hprev : ∀ x ∈ obs.take k, x.seen_at ≤ t) :
    obs.take (k + (b.release_buffer t).2.length) =
      obs.takeWhile (fun o => decide (o.seen_at ≤ t)) := by
  obtain ⟨hws, hnext, hheap, hk, hbuf, haw, hst⟩ := hInv
  set n := obs.length with hn
  set pO : Observation → Bool := fun o => decide (o.seen_at ≤ t) with hpO
  have hrel : (b.release_buffer t).2 =
      ((List.range n).drop k).takeWhile (pO ∘ heapOf obs) := by
    rw [release_buffer_released, hbuf, hheap]
    rfl
  have hmapdrop : ((List.range n).drop k).map (heapOf obs) = obs.drop k := by
    rw [List.map_drop, map_heapOf_range]
  have hmap : (b.release_buffer t).2.map (heapOf obs) =
      (obs.drop k).takeWhile pO := by
    rw [hrel, ← List.takeWhile_map, hmapdrop]
  set j := (b.release_buffer t).2.length with hj
  have hjeq : j = ((obs.drop k).takeWhile pO).length := by
    rw [hj, ← hmap, List.length_map]
  have hall : ∀ x ∈ obs.take k, pO x = true := by
    intro x hx
    simpa [hpO] using hprev x hx
  have htw : obs.takeWhile pO = obs.take k ++ (obs.drop k).takeWhile pO := by
    conv_lhs => rw [← List.take_append_drop k obs]
    rw [takeWhile_append_of_all _ hall]
  have htake : (obs.drop k).takeWhile pO = (obs.drop k).take j := by
    rw [hjeq]
    exact List.prefix_iff_eq_take.mp (List.takeWhile_prefix pO)
  rw [List.take_add, htw, htake]

theorem runB_append (b : ObservationBuffer) (l1 l2 : List BufOp) :
    runB b (l1 ++ l2) =
      ((runB (runB b l1).1 l2).1,
        (runB b l1).2 ++ (runB (runB b l1).1 l2).2) := by
  induction l1 generalizing b with
  | nil => simp [runB]
  | cons op l1 ih => simp [runB, ih, List.append_assoc]

theorem insertedObs_append (l1 l2 : List BufOp) :
    insertedObs (l1 ++ l2) = insertedObs l1 ++ insertedObs l2 := by
  induction l1 with
  | nil => rfl
  | cons op l1 ih => cases op <;> simp [insertedObs, ih]

theorem opTimes_append (l1 l2 : List BufOp) :
    opTimes (l1 ++ l2) = opTimes l1 ++ opTimes l2 := by
  induction l1 with
  | nil => rfl
  | cons op l1 ih => cases op <;> simp [opTimes, ih]

theorem opTimes_eq_nil {ops : List BufOp} (h : opTimes ops = []) : ops = [] := by
  cases ops with
  | nil => rfl
  | cons op ops => cases op <;> simp [opTimes] at h

/-- Cumulative-release characterization: after a call sequence whose
per-call stable timestamps are non-decreasing and end at `tl`, exactly the
`takeWhile (seen_at ≤ tl)` prefix of the inserted observations has been
released. -/
theorem runB_cum (ws : Nat) (ops : List BufOp)
    (H2 : List.Chain' (· ≤ ·) (opTimes ops)) :
    ∀ tl : Int, (opTimes ops).getLast? = some tl →
      (insertedObs ops).take (runB (ObservationBuffer.init ws) ops).2.length =
        (insertedObs ops).takeWhile (fun o => decide (o.seen_at ≤ tl)) := by
  induction ops using List.reverseRecOn with
  | nil => intro tl htl; simp [opTimes] at htl
  | append_singleton l op ih =>
    intro tl htl
    have hInv := (runB_init_inv ws l).1
    set st1 := (runB (ObservationBuffer.init ws) l).1 with hst1
    set k := (runB (ObservationBuffer.init ws) l).2.length with hkdef
    have hktimes : opTimes (l ++ [op]) = opTimes l ++ opTimes [op] :=
      opTimes_append l [op]
    have H2l : List.Chain' (· ≤ ·) (opTimes l) := by
      rw [hktimes] at H2
      exact (List.chain'_append.mp H2).1
    -- the previous releases satisfy `seen_at ≤ t` for the final time `t`,
    -- because the stable timestamps are non-decreasing
    have hprev_gen : ∀ t : Int,
        (∀ x ∈ (opTimes l).getLast?, x ≤ t) →
        ∀ x ∈ (insertedObs l).take k, x.seen_at ≤ t := by
      intro t hle x hx
      cases hlast : (opTimes l).getLast? with
      | none =>
        have : l = [] := opTimes_eq_nil (List.getLast?_eq_none_iff.mp hlast)
        subst this
        simp [runB] at hkdef
        rw [hkdef] at hx
        simp at hx
      | some tp =>
        have hih := ih H2l tp hlast
        rw [hih] at hx
        have := List.mem_takeWhile_imp hx
        have htp : x.seen_at ≤ tp := by simpa using this
        exact le_trans htp (hle tp (by rw [hlast]; rfl))
    cases op with
    | rel t =>
      have htl' : tl = t := by
        rw [hktimes] at htl
        simp [opTimes, List.getLast?_concat] at htl
        omega
      subst htl'
      have hle : ∀ x ∈ (opTimes l).getLast?, x ≤ tl := by
        intro x hgl
        rw [hktimes] at H2
        exact (List.chain'_append.mp H2).2.2 x hgl tl (by simp [opTimes])
      have hcum := release_cum hInv tl (hprev_gen tl hle)
      have hsplit := runB_append (ObservationBuffer.init ws) l [.rel tl]
      have hrel2 : (runB st1 [BufOp.rel tl]).2 = (st1.release_buffer tl).2 := by
        simp [runB, stepB]
      have hlen : (runB (ObservationBuffer.init ws) (l ++ [BufOp.rel tl])).2.length
          = k + (st1.release_buffer tl).2.length := by
        rw [hsplit]
        simp [hrel2]
      rw [insertedObs_append, hlen]
      simpa [insertedObs] using hcum
    | add o t =>
      have htl' : tl = t := by
        rw [hktimes] at htl
        simp [opTimes, List.getLast?_concat] at htl
        omega
      subst htl'
      have hle : ∀ x ∈ (opTimes l).getLast?, x ≤ tl := by
        intro x hgl
        rw [hktimes] at H2
        exact (List.chain'_append.mp H2).2.2 x hgl tl (by simp [opTimes])
      have hInv1 := add_intermediate hInv o
      have hkle : k ≤ (insertedObs l).length := hInv.2.2.2.1
      have hprev1 : ∀ x ∈ (insertedObs l ++ [o]).take k, x.seen_at ≤ tl := by
        rw [List.take_append_of_le_length hkle]
        exact hprev_gen tl hle
      have hcum := release_cum hInv1 tl hprev1
      have hsplit := runB_append (ObservationBuffer.init ws) l [.add o tl]
      have hrel2 : (runB st1 [BufOp.add o tl]).2 =
          (st1.add_observation o tl).2 := by
        simp [runB, stepB]
      have hlen : (runB (ObservationBuffer.init ws)
          (l ++ [BufOp.add o tl])).2.length
          = k + (st1.add_observation o tl).2.length := by
        rw [hsplit]
        simp [hrel2]
      rw [insertedObs_append, hlen]
      simpa [insertedObs] using hcum

theorem map_heapOf_range_take {obs : List Observation} {m : Nat}
    (h : m ≤ obs.length) :
    (List.range m).map (heapOf obs) = obs.take m := by
  have h1 : List.range m = (List.range obs.length).take m := by
    rw [List.take_range, Nat.min_eq_left h]
  rw [h1, List.map_take, map_heapOf_range]

/-! ## Claim C1 -/

/-- The conclusion of claim C1, for a buffer `b` reached by the call
sequence `ops` from a fresh `ObservationBuffer window_size` and a
`release_buffer t` call on it: the released list is a prefix of `buffer`
(removed from it), contains exactly the observations with `seen_at ≤ t`
(every remaining buffered observation has `seen_at > t`), each released id
is appended to `stable_window` (with eviction), and the concatenation of
all outputs so far is the `seen_at ≤ t` prefix of the inserted
observations. -/
def ReleaseBufferSpec (ws : Nat) (ops : List BufOp) (t : Int) : Prop :=
  (∀ i ∈ ((runB (ObservationBuffer.init ws) ops).1.release_buffer t).2,
    ((runB (ObservationBuffer.init ws) ops).1.heap i).seen_at ≤ t) ∧
  ((runB (ObservationBuffer.init ws) ops).1.release_buffer t).2 ++
      ((runB (ObservationBuffer.init ws) ops).1.release_buffer t).1.buffer =
    (runB (ObservationBuffer.init ws) ops).1.buffer ∧
  (∀ i ∈ ((runB (ObservationBuffer.init ws) ops).1.release_buffer t).1.buffer,
    t < ((runB (ObservationBuffer.init ws) ops).1.heap i).seen_at) ∧
  ((runB (ObservationBuffer.init ws) ops).1.release_buffer t).1.stable_window =
    takeLastN (runB (ObservationBuffer.init ws) ops).1.window_size
      ((runB (ObservationBuffer.init ws) ops).1.stable_window ++
        ((runB (ObservationBuffer.init ws) ops).1.release_buffer t).2) ∧
  ((runB (ObservationBuffer.init ws) ops).1.release_buffer t).1.active_window =
    (runB (ObservationBuffer.init ws) ops).1.active_window ∧
  ((runB (ObservationBuffer.init ws) ops).1.release_buffer t).1.heap =
    (runB (ObservationBuffer.init ws) ops).1.heap ∧
  ((runB (ObservationBuffer.init ws) ops).2 ++
        ((runB (ObservationBuffer.init ws) ops).1.release_buffer t).2).map
      (runB (ObservationBuffer.init ws) ops).1.heap =
    (insertedObs ops).takeWhile (fun o => decide (o.seen_at ≤ t))

/-- C1: for every sequence of `add_observation` calls with non-decreasing
`seen_at` and non-decreasing stable timestamps ending at `t`,
`release_buffer t` returns exactly the maximal prefix of `buffer` with
`seen_at ≤ t` in insertion order, removes it from `buffer`, appends each
released observation to `stable_window`, never returns an observation with
`seen_at > t`, and the concatenation of all release outputs equals the
prefix of inserted observations with `seen_at ≤ t`. -/
theorem release_buffer_ordered_release (ws : Nat) (ops : List BufOp) (t : Int)
    (H1 : SeenMono ops)
    (H2 : List.Chain' (· ≤ ·) (opTimes ops ++ [t])) :
    ReleaseBufferSpec ws ops t := by
  have hInv := (runB_init_inv ws ops).1
  have hrel0 := (runB_init_inv ws ops).2
  set b := (runB (ObservationBuffer.init ws) ops).1 with hb
  set k := (runB (ObservationBuffer.init ws) ops).2.length with hkdef
  obtain ⟨hws, hnext, hheap, hk, hbuf, haw, hst⟩ := hInv
  set obs := insertedObs ops with hobs
  set n := obs.length with hn
  have hstate := release_buffer_state b t
  have hreleq := release_buffer_released b t
  have hstep := release_step ⟨hws, hnext, hheap, hk, hbuf, haw, hst⟩ t
  set j := (b.release_buffer t).2.length with hj
  have hsorted : SortedSeen b.heap b.buffer := by
    rw [hheap, hbuf]
    exact SortedSeen.drop (sortedSeen_range H1) k
  refine ⟨?_, ?_, ?_, ?_, ?_, ?_, ?_⟩
  · intro i hi
    rw [hreleq] at hi
    have := List.mem_takeWhile_imp hi
    simpa using this
  · rw [hreleq, hstate]
    exact List.takeWhile_append_dropWhile _ _
  · intro i hi
    have hbuf' : (b.release_buffer t).1.buffer =
        b.buffer.dropWhile (fun i => decide ((b.heap i).seen_at ≤ t)) := by
      rw [hstate]
    rw [hbuf'] at hi
    exact mem_dropWhile_of_sorted hsorted hi
  · have hstlen : b.stable_window.length ≤ b.window_size := by
      rw [hst, hws]
      exact length_takeLastN_le ws _
    have hst' : (b.release_buffer t).1.stable_window =
        (b.buffer.takeWhile (fun i => decide ((b.heap i).seen_at ≤ t))).foldl
          (dequeAppend b.window_size) b.stable_window := by
      rw [hstate]
    rw [hst', ← hreleq, foldl_dequeAppend _ _ _ hstlen, hws]
  · rw [hstate]
  · rw [hstate]
  · have hcum := runB_cum ws (ops ++ [.rel t])
      (by rw [opTimes_append]; simpa [opTimes] using H2) t
      (by rw [opTimes_append]; simp [opTimes])
    have hsplit := runB_append (ObservationBuffer.init ws) ops [.rel t]
    have hrel2 : (runB b [BufOp.rel t]).2 = (b.release_buffer t).2 := by
      simp [runB, stepB]
    have hlen : (runB (ObservationBuffer.init ws) (ops ++ [BufOp.rel t])).2
        = (runB (ObservationBuffer.init ws) ops).2 ++ (b.release_buffer t).2 := by
      rw [hsplit, hrel2]
    rw [hlen, insertedObs_append] at hcum
    have hobs' : insertedObs ops ++ insertedObs [BufOp.rel t] = obs := by
      simp [insertedObs, hobs]
    rw [hobs'] at hcum
    have hlen2 : ((runB (ObservationBuffer.init ws) ops).2 ++
        (b.release_buffer t).2).length = k + j := by
      simp [hkdef, hj]
    rw [hlen2] at hcum
    have hrange : (runB (ObservationBuffer.init ws) ops).2 ++
        (b.release_buffer t).2 = List.range (k + j) := by
      rw [hrel0]
      exact hstep.2
    rw [hrange, hheap, map_heapOf_range_take hstep.1.2.2.2.1]
    exact hcum

/-- Concrete observation used in the demonstration runs. -/
def demoObs (t : Int) : Observation :=
  Observation.make [] none t 0 1

def demoOps : List BufOp :=
  [.add (demoObs 1) 0, .add (demoObs 2) 0, .add (demoObs 3) 2]

/-- Witness for C1 at a concrete run. -/
theorem release_buffer_ordered_release_witness :
    SeenMono demoOps ∧
    List.Chain' (· ≤ ·) (opTimes demoOps ++ [2]) ∧
    ReleaseBufferSpec 2 demoOps 2 :=
  ⟨by decide,
    (chain'_le_iff_nondecreasing _).mpr (by decide),
    release_buffer_ordered_release 2 demoOps 2 (by decide)
      ((chain'_le_iff_nondecreasing _).mpr (by decide))⟩

/-! ## Claims C2 and C3 -/

/-- The conclusion of claim C2: after `reset_on_drift new_id d` on a buffer
reached by the call sequence `ops`, none of the three containers holds an
observation with `seen_at ≤ d`, and every observation remaining in
`buffer` and in `stable_window` carries `active_state_id = new_id`. -/
def ResetPruneSpec (ws : Nat) (ops : List BufOp) (nid d : Int) : Prop :=
  (∀ i ∈ ((runB (ObservationBuffer.init ws) ops).1.reset_on_drift nid d).buffer,
    d < (((runB (ObservationBuffer.init ws) ops).1.reset_on_drift nid d).heap i).seen_at) ∧
  (∀ i ∈ ((runB (ObservationBuffer.init ws) ops).1.reset_on_drift nid d).active_window,
    d < (((runB (ObservationBuffer.init ws) ops).1.reset_on_drift nid d).heap i).seen_at) ∧
  (∀ i ∈ ((runB (ObservationBuffer.init ws) ops).1.reset_on_drift nid d).stable_window,
    d < (((runB (ObservationBuffer.init ws) ops).1.reset_on_drift nid d).heap i).seen_at) ∧
  (∀ i ∈ ((runB (ObservationBuffer.init ws) ops).1.reset_on_drift nid d).buffer,
    (((runB (ObservationBuffer.init ws) ops).1.reset_on_drift nid d).heap i).active_state_id = nid) ∧
  (∀ i ∈ ((runB (ObservationBuffer.init ws) ops).1.reset_on_drift nid d).stable_window,
    (((runB (ObservationBuffer.init ws) ops).1.reset_on_drift nid d).heap i).active_state_id = nid)

/-- The sortedness facts shared by the reset claims: all three containers
of a reachable buffer reference observations in non-decreasing `seen_at`
order. -/
theorem reachable_sorted {ws : Nat} {ops : List BufOp} (H1 : SeenMono ops) :
    SortedSeen (runB (ObservationBuffer.init ws) ops).1.heap
        (runB (ObservationBuffer.init ws) ops).1.buffer ∧
    SortedSeen (runB (ObservationBuffer.init ws) ops).1.heap
        (runB (ObservationBuffer.init ws) ops).1.active_window ∧
    SortedSeen (runB (ObservationBuffer.init ws) ops).1.heap
        (runB (ObservationBuffer.init ws) ops).1.stable_window := by
  obtain ⟨hws, hnext, hheap, hk, hbuf, haw, hst⟩ := (runB_init_inv ws ops).1
  set k := (runB (ObservationBuffer.init ws) ops).2.length
  have hr := @sortedSeen_range (insertedObs ops) H1
  have hrk : SortedSeen (heapOf (insertedObs ops)) (List.range k) := by
    have : List.range k = (List.range (insertedObs ops).length).take k := by
      rw [List.take_range, Nat.min_eq_left hk]
    rw [this]
    exact hr.take k
  refine ⟨?_, ?_, ?_⟩
  · rw [hheap, hbuf]
    exact hr.drop k
  · rw [hheap, haw, takeLastN_eq_drop]
    exact hr.drop _
  · rw [hheap, hst, takeLastN_eq_drop]
    exact hrk.drop _

/-- C2: after `reset_on_drift new_id d` on any buffer whose observations
were inserted with non-decreasing `seen_at`, no observation reachable
through `buffer`, `active_window` or `stable_window` has `seen_at ≤ d`,
and every observation remaining in `buffer` and `stable_window` has been
relabeled to `active_state_id = new_id`. -/
theorem reset_on_drift_prunes_and_relabels (ws : Nat) (ops : List BufOp)
    (nid d : Int) (H1 : SeenMono ops) : ResetPruneSpec ws ops nid d := by
  obtain ⟨hsb, hsa, hss⟩ := @reachable_sorted ws ops H1
  set b := (runB (ObservationBuffer.init ws) ops).1 with hb
  set old : Nat → Bool := fun i => decide ((b.heap i).seen_at ≤ d) with hold
  have hbuf' : (b.reset_on_drift nid d).buffer = b.buffer.dropWhile old := rfl
  have haw' : (b.reset_on_drift nid d).active_window =
      b.active_window.dropWhile old := rfl
  have hst' : (b.reset_on_drift nid d).stable_window =
      b.stable_window.dropWhile old := rfl
  have hheap' : (b.reset_on_drift nid d).heap =
      relabelAll (relabelAll b.heap (b.stable_window.dropWhile old) nid)
        (b.buffer.dropWhile old) nid := rfl
  have hseen : ∀ i, ((b.reset_on_drift nid d).heap i).seen_at =
      (b.heap i).seen_at := by
    intro i
    rw [hheap', relabelAll_seen_at, relabelAll_seen_at]
  refine ⟨?_, ?_, ?_, ?_, ?_⟩
  · intro i hi
    rw [hseen]
    rw [hbuf'] at hi
    exact mem_dropWhile_of_sorted hsb hi
  · intro i hi
    rw [hseen]
    rw [haw'] at hi
    exact mem_dropWhile_of_sorted hsa hi
  · intro i hi
    rw [hseen]
    rw [hst'] at hi
    exact mem_dropWhile_of_sorted hss hi
  · intro i hi
    rw [hbuf'] at hi
    rw [hheap']
    exact relabelAll_mem _ hi
  · intro i hi
    rw [hst'] at hi
    rw [hheap']
    by_cases hib : i ∈ b.buffer.dropWhile old
    · exact relabelAll_mem _ hib
    · rw [relabelAll_not_mem _ hib]
      exact relabelAll_mem _ hi

def demoOpsReset : List BufOp :=
  [.add (demoObs 1) 0, .add (demoObs 2) 0, .add (demoObs 3) 2, .add (demoObs 4) 2]

/-- Witness for C2 at a concrete run. -/
theorem reset_on_drift_prunes_and_relabels_witness :
    SeenMono demoOpsReset ∧ ResetPruneSpec 2 demoOpsReset 9 1 :=
  ⟨by decide, reset_on_drift_prunes_and_relabels 2 demoOpsReset 9 1 (by decide)⟩

/-- The conclusion of claim C3: after `reset_on_drift new_id d`, every id
remaining in `active_window` is shared with `buffer` or with
`stable_window` (the same heap cell, i.e. the same Python object), and in
particular every observation seen through `active_window` also shows
`active_state_id = new_id` although only `stable_window` and `buffer` were
relabeled. -/
def ResetActiveSharedSpec (ws : Nat) (ops : List BufOp) (nid d : Int) : Prop :=
  (∀ i ∈ ((runB (ObservationBuffer.init ws) ops).1.reset_on_drift nid d).active_window,
    i ∈ ((runB (ObservationBuffer.init ws) ops).1.reset_on_drift nid d).buffer ∨
    i ∈ ((runB (ObservationBuffer.init ws) ops).1.reset_on_drift nid d).stable_window) ∧
  (∀ i ∈ ((runB (ObservationBuffer.init ws) ops).1.reset_on_drift nid d).active_window,
    (((runB (ObservationBuffer.init ws) ops).1.reset_on_drift nid d).heap i).active_state_id = nid)

/-- C3: relabeling only `stable_window` and `buffer` is visible through
`active_window`, because after the prune every observation of
`active_window` is the same shared heap cell as one of `buffer` or
`stable_window`. -/
theorem reset_on_drift_active_window_shared (ws : Nat) (ops : List BufOp)
    (nid d : Int) (H1 : SeenMono ops) : ResetActiveSharedSpec ws ops nid d := by
  obtain ⟨hsb, hsa, hss⟩ := @reachable_sorted ws ops H1
  have hInv := (runB_init_inv ws ops).1
  set b := (runB (ObservationBuffer.init ws) ops).1 with hb
  set k := (runB (ObservationBuffer.init ws) ops).2.length
  obtain ⟨hws, hnext, hheap, hk, hbuf, haw, hst⟩ := hInv
  set obs := insertedObs ops with hobs
  set n := obs.length with hn
  set old : Nat → Bool := fun i => decide ((b.heap i).seen_at ≤ d) with hold
  have hbuf' : (b.reset_on_drift nid d).buffer = b.buffer.dropWhile old := rfl
  have haw' : (b.reset_on_drift nid d).active_window =
      b.active_window.dropWhile old := rfl
  have hst' : (b.reset_on_drift nid d).stable_window =
      b.stable_window.dropWhile old := rfl
  have hheap' : (b.reset_on_drift nid d).heap =
      relabelAll (relabelAll b.heap (b.stable_window.dropWhile old) nid)
        (b.buffer.dropWhile old) nid := rfl
  have hshift : ∀ i ∈ (b.reset_on_drift nid d).active_window,
      i ∈ (b.reset_on_drift nid d).buffer ∨
      i ∈ (b.reset_on_drift nid d).stable_window := by
    intro i hi
    rw [haw'] at hi
    have hnew : d < (b.heap i).seen_at := mem_dropWhile_of_sorted hsa hi
    have hiaw : i ∈ b.active_window := by
      have hsplit : b.active_window.takeWhile old ++
          b.active_window.dropWhile old = b.active_window :=
        List.takeWhile_append_dropWhile old b.active_window
      rw [← hsplit]
      exact List.mem_append_right _ hi
    have hiws : i ∈ b.stable_window ∨ i ∈ b.buffer := by
      have hrange : List.range n = List.range k ++ (List.range n).drop k := by
        have h1 : (List.range n).take k = List.range k := by
          rw [List.take_range, Nat.min_eq_left hk]
        rw [← h1, List.take_append_drop]
      rw [haw, hrange] at hiaw
      rcases mem_takeLastN_append hiaw with h | h
      · left
        rw [hst]
        exact h
      · right
        rw [hbuf]
        exact h
    have hfalse : old i = false := by
      rw [hold]
      simp only [decide_eq_false_iff_not, not_le]
      exact hnew
    rcases hiws with h | h
    · right
      rw [hst']
      exact mem_dropWhile_of_not h hfalse
    · left
      rw [hbuf']
      exact mem_dropWhile_of_not h hfalse
  refine ⟨hshift, ?_⟩
  intro i hi
  rcases hshift i hi with h | h
  · rw [hbuf'] at h
    rw [hheap']
    exact relabelAll_mem _ h
  · rw [hst'] at h
    rw [hheap']
    by_cases hib : i ∈ b.buffer.dropWhile old
    · exact relabelAll_mem _ hib
    · rw [relabelAll_not_mem _ hib]
      exact relabelAll_mem _ h

/-- Witness for C3 at a concrete run. -/
theorem reset_on_drift_active_window_shared_witness :
    SeenMono demoOpsReset ∧ ResetActiveSharedSpec 2 demoOpsReset 9 1 :=
  ⟨by decide, reset_on_drift_active_window_shared 2 demoOpsReset 9 1 (by decide)⟩

/-! ## Claims C5, C7, C8, C9: the `Observation` record and the detector -/

section PredLookup

variable {k sid v : Int}

theorem predLookup_eq_none_of_any_false :
    ∀ m : List (Int × Int), m.any (fun kv => kv.1 = k) = false →
      predLookup m k = none
  | [], _ => rfl
  | (k', v') :: rest, h => by
    simp only [List.any_cons, Bool.or_eq_false_iff, decide_eq_false_iff_not] at h
    rw [predLookup, if_neg h.1]
    exact predLookup_eq_none_of_any_false rest (by simpa using h.2)

theorem predLookup_append_of_none {m' : List (Int × Int)} :
    ∀ m : List (Int × Int), predLookup m k = none →
      predLookup (m ++ m') k = predLookup m' k
  | [], _ => rfl
  | (k', v') :: rest, h => by
    rw [predLookup] at h
    by_cases hk : k' = k
    · rw [if_pos hk] at h
      exact absurd h (by simp)
    · rw [if_neg hk] at h
      rw [List.cons_append, predLookup, if_neg hk]
      exact predLookup_append_of_none rest h

theorem predLookup_map_upsert :
    ∀ m : List (Int × Int), m.any (fun kv => kv.1 = sid) = true →
      predLookup (m.map (fun kv => if kv.1 = sid then (sid, v) else kv)) sid =
        some v
  | [], h => by simp at h
  | (k', v') :: rest, h => by
    rw [List.map_cons]
    by_cases hk : k' = sid
    · have hhead : (if ((k', v') : Int × Int).1 = sid then (sid, v)
          else (k', v')) = (sid, v) := if_pos hk
      rw [hhead]
      show (if sid = sid then some v else _) = some v
      rw [if_pos rfl]
    · have hhead : (if ((k', v') : Int × Int).1 = sid then (sid, v)
          else (k', v')) = (k', v') := if_neg hk
      have h' : rest.any (fun kv => kv.1 = sid) = true := by
        simp only [List.any_cons, decide_eq_true_eq, Bool.or_eq_true] at h
        rcases h with h | h
        · exact absurd h hk
        · exact h
      rw [hhead]
      show (if k' = sid then some v' else _) = some v
      rw [if_neg hk]
      exact predLookup_map_upsert rest h'

theorem predLookup_map_upsert_other (h : k ≠ sid) :
    ∀ m : List (Int × Int),
      predLookup (m.map (fun kv => if kv.1 = sid then (sid, v) else kv)) k =
        predLookup m k
  | [] => rfl
  | (k', v') :: rest => by
    rw [List.map_cons]
    by_cases hk : k' = sid
    · have hhead : (if ((k', v') : Int × Int).1 = sid then (sid, v)
          else (k', v')) = (sid, v) := if_pos hk
      rw [hhead]
      show (if sid = k then some v else _) =
        (if k' = k then some v' else predLookup rest k)
      rw [if_neg (fun hs => h hs.symm), if_neg (fun hs => h (hk ▸ hs).symm)]
      exact predLookup_map_upsert_other h rest
    · have hhead : (if ((k', v') : Int × Int).1 = sid then (sid, v)
          else (k', v')) = (k', v') := if_neg hk
      rw [hhead]
      show (if k' = k then some v' else _) =
        (if k' = k then some v' else predLookup rest k)
      by_cases hkk : k' = k
      · rw [if_pos hkk, if_pos hkk]
      · rw [if_neg hkk, if_neg hkk]
        exact predLookup_map_upsert_other h rest

theorem predLookup_dictInsert_self (m : List (Int × Int)) :
    predLookup (dictInsert m sid v) sid = some v := by
  rw [dictInsert]
  by_cases h : m.any (fun kv => kv.1 = sid) = true
  · rw [if_pos h]
    exact predLookup_map_upsert m h
  · rw [if_neg h]
    have hnone : predLookup m sid = none :=
      predLookup_eq_none_of_any_false m (Bool.eq_false_iff.mpr h)
    rw [predLookup_append_of_none m hnone]
    show (if sid = sid then some v else none) = some v
    rw [if_pos rfl]

theorem predLookup_append_single_other (h2 : ¬sid = k) :
    ∀ m : List (Int × Int), predLookup (m ++ [(sid, v)]) k = predLookup m k
  | [] => by
    show (if sid = k then some v else none) = none
    exact if_neg h2
  | (k', v') :: rest => by
    show (if k' = k then some v' else predLookup (rest ++ [(sid, v)]) k) =
      (if k' = k then some v' else predLookup rest k)
    by_cases hkk : k' = k
    · rw [if_pos hkk, if_pos hkk]
    · rw [if_neg hkk, if_neg hkk]
      exact predLookup_append_single_other h2 rest

theorem predLookup_dictInsert_other (h : k ≠ sid) (m : List (Int × Int)) :
    predLookup (dictInsert m sid v) k = predLookup m k := by
  rw [dictInsert]
  by_cases hany : m.any (fun kv => kv.1 = sid) = true
  · rw [if_pos hany]
    exact predLookup_map_upsert_other h m
  · rw [if_neg hany]
    exact predLookup_append_single_other (fun hs => h hs.symm) m

end PredLookup

/-- Folding a sequence of `add_prediction` calls over an observation. -/
def applyPredictions (o : Observation) (calls : List (Int × Int)) : Observation :=
  calls.foldl (fun o' c => o'.add_prediction c.1 c.2) o

theorem applyPredictions_keeps_key {k : Int} :
    ∀ (calls : List (Int × Int)) (o : Observation),
      (predLookup o.predictions k).isSome = true →
      (predLookup (applyPredictions o calls).predictions k).isSome = true
  | [], _, h => h
  | (p, sid) :: calls, o, h => by
    apply applyPredictions_keeps_key calls
    show (predLookup (dictInsert o.predictions sid p) k).isSome = true
    by_cases hk : k = sid
    · subst hk
      rw [predLookup_dictInsert_self]
      rfl
    · rw [predLookup_dictInsert_other hk]
      exact h

/-- C7 (amended): `add_prediction` is an upsert.  A call stores its label
under its `state_id`; entries under every other `state_id` are unchanged;
and a key present in `predictions` is still present after any further
sequence of `add_prediction` calls (entries are never removed).  However a
later call with the same `state_id` replaces the stored label (see the
counterexample), so the mapping is not append-only in the stored values. -/
theorem add_prediction_upsert (o : Observation) (p sid k : Int)
    (calls : List (Int × Int)) (h : k ≠ sid) :
    predLookup (o.add_prediction p sid).predictions sid = some p ∧
    predLookup (o.add_prediction p sid).predictions k =
      predLookup o.predictions k ∧
    ((predLookup o.predictions k).isSome = true →
      (predLookup (applyPredictions o calls).predictions k).isSome = true) :=
  ⟨predLookup_dictInsert_self o.predictions,
    predLookup_dictInsert_other h o.predictions,
    fun hs => applyPredictions_keeps_key calls o hs⟩

def predObs : Observation := Observation.make [] none 0 0 1

/-- Counterexample to C7 as stated: the code's
`self.predictions[state_id] = p` overwrites, so a second `add_prediction`
call with the same `state_id` changes the stored label from `5` to `7`. -/
theorem add_prediction_overwrites_label :
    predLookup ((predObs.add_prediction 5 1).predictions) 1 = some 5 ∧
    predLookup (((predObs.add_prediction 5 1).add_prediction 7 1).predictions) 1
      = some 7 ∧
    predLookup (((predObs.add_prediction 5 1).add_prediction 7 1).predictions) 1
      ≠ some 5 :=
  ⟨rfl, rfl, by decide⟩

/-- Witness for the amended C7 at concrete values. -/
theorem add_prediction_upsert_witness :
    (2 : Int) ≠ 1 ∧
    predLookup (predObs.add_prediction 5 1).predictions 1 = some 5 ∧
    predLookup (predObs.add_prediction 5 1).predictions 2 =
      predLookup predObs.predictions 2 ∧
    ((predLookup predObs.predictions 2).isSome = true →
      (predLookup (applyPredictions predObs [(7, 1)]).predictions 2).isSome
        = true) :=
  ⟨by decide,
    (add_prediction_upsert predObs 5 1 2 [(7, 1)] (by decide)).1,
    (add_prediction_upsert predObs 5 1 2 [(7, 1)] (by decide)).2.1,
    (add_prediction_upsert predObs 5 1 2 [(7, 1)] (by decide)).2.2⟩

/-- C5 (amended): `active_state_relevance` is settable whenever the passed
`active_state_id` matches the observation's current one; a successful call
stores the given value, overwriting whatever was stored before — the field
is not write-once. -/
theorem add_active_state_relevance_matching_sets (o : Observation) (v id : Int)
    (h : id = o.active_state_id) :
    o.add_active_state_relevance v id =
      .ok { o with active_state_relevance := some v } := by
  rw [Observation.add_active_state_relevance, if_neg (by simp [h])]

def relevObs : Observation := Observation.make [] none 0 7 1

/-- Counterexample to C5 as stated: the code has no write-once guard, so
after one successful `add_active_state_relevance 5 7` call (storing `5`),
a later call `add_active_state_relevance 9 7` also succeeds and changes
the stored value to `9`. -/
theorem add_active_state_relevance_not_write_once :
    (relevObs.add_active_state_relevance 5 7).map
        Observation.active_state_relevance = .ok (some 5) ∧
    ((relevObs.add_active_state_relevance 5 7).bind
          (fun o => o.add_active_state_relevance 9 7)).map
        Observation.active_state_relevance = .ok (some 9) ∧
    (some 9 : Option Int) ≠ some 5 :=
  ⟨rfl, rfl, by decide⟩

/-- Witness for the amended C5 at concrete values. -/
theorem add_active_state_relevance_matching_sets_witness :
    (7 : Int) = relevObs.active_state_id ∧
    relevObs.add_active_state_relevance 5 7 =
      .ok { relevObs with active_state_relevance := some 5 } :=
  ⟨by decide, add_active_state_relevance_matching_sets relevObs 5 7 (by decide)⟩

/-- C8: `add_active_state_relevance v wrong_id` with a non-matching id
raises `ValueError` (embedded: returns `Except.error`, producing no
updated observation, so the observation — in particular its still-unset
`active_state_relevance` — is unchanged), while a call with the matching
id succeeds and stores the value. -/
theorem add_active_state_relevance_guard (o : Observation) (v wid : Int)
    (h : wid ≠ o.active_state_id) :
    o.add_active_state_relevance v wid =
      .error ("Attempting to set active state relevance for wrong state "
        ++ toString wid ++ ".") ∧
    o.add_active_state_relevance v o.active_state_id =
      .ok { o with active_state_relevance := some v } :=
  ⟨by rw [Observation.add_active_state_relevance, if_pos (by simpa using h)],
    add_active_state_relevance_matching_sets o v o.active_state_id rfl⟩

/-- Witness for C8 at concrete values. -/
theorem add_active_state_relevance_guard_witness :
    (3 : Int) ≠ relevObs.active_state_id ∧
    relevObs.add_active_state_relevance 5 3 =
      .error ("Attempting to set active state relevance for wrong state "
        ++ toString (3 : Int) ++ ".") ∧
    relevObs.add_active_state_relevance 5 relevObs.active_state_id =
      .ok { relevObs with active_state_relevance := some 5 } :=
  ⟨by decide,
    (add_active_state_relevance_guard relevObs 5 3 (by decide)).1,
    (add_active_state_relevance_guard relevObs 5 3 (by decide)).2⟩

/-- C9: `get_drift_detector_estimate` raises `ValueError` exactly when the
detector does not expose an `estimation` attribute (embedded as
`estimation = none`), and otherwise returns the detector's estimation
value without error. -/
theorem get_drift_detector_estimate_spec (dtor : DriftDetector) :
    ((∃ msg, get_drift_detector_estimate dtor = .error msg) ↔
      dtor.estimation = none) ∧
    (∀ e, dtor.estimation = some e →
      get_drift_detector_estimate dtor = .ok e) := by
  have hget_none : dtor.estimation = none →
      get_drift_detector_estimate dtor =
        .error "Cannot get estimate from detector. Either use a different detector or use the 'any' mode. " := by
    intro h
    simp only [get_drift_detector_estimate, h]
  have hget_some : ∀ e, dtor.estimation = some e →
      get_drift_detector_estimate dtor = .ok e := by
    intro e h
    simp only [get_drift_detector_estimate, h]
  refine ⟨⟨?_, fun hn => ⟨_, hget_none hn⟩⟩, hget_some⟩
  rintro ⟨msg, hmsg⟩
  cases h : dtor.estimation with
  | none => rfl
  | some e =>
    rw [hget_some e h] at hmsg
    cases hmsg

/-- Witness for C9 at concrete detectors. -/
theorem get_drift_detector_estimate_spec_witness :
    (∃ msg, get_drift_detector_estimate ⟨none⟩ = .error msg) ∧
    get_drift_detector_estimate ⟨some 3⟩ = .ok 3 :=
  ⟨(get_drift_detector_estimate_spec ⟨none⟩).1.mpr rfl,
    (get_drift_detector_estimate_spec ⟨some 3⟩).2 3 rfl⟩

/-! ## Claim C6: the clocks -/

/-- C6 (amended): each call to `buffer_unsupervised` / `buffer_supervised`
advances the corresponding clock by `+1` when `current_timestamp` is the
`-1.0` sentinel, and otherwise sets it to exactly `current_timestamp`.
The clock is therefore non-decreasing for sentinel calls, but an
explicitly supplied timestamp smaller than the current clock moves it
backward (see the counterexample), so the clock is not monotone for
arbitrary `current_timestamp` arguments. -/
theorem clocks_increment_or_jump (s : SupervisedUnsupervisedBuffer)
    (x : List (String × Int)) (y sid ct w : Int) (h : ct ≠ -1) :
    ((s.buffer_unsupervised x sid (-1) w).1).unsupervised_active_timestamp =
      s.unsupervised_active_timestamp + 1 ∧
    ((s.buffer_unsupervised x sid ct w).1).unsupervised_active_timestamp = ct ∧
    ((s.buffer_supervised x y sid (-1) w).1).supervised_active_timestamp =
      s.supervised_active_timestamp + 1 ∧
    ((s.buffer_supervised x y sid ct w).1).supervised_active_timestamp = ct := by
  refine ⟨?_, ?_, ?_, ?_⟩
  · simp [SupervisedUnsupervisedBuffer.buffer_unsupervised]
  · simp [SupervisedUnsupervisedBuffer.buffer_unsupervised, h]
  · simp [SupervisedUnsupervisedBuffer.buffer_supervised]
  · simp [SupervisedUnsupervisedBuffer.buffer_supervised, h]

def clockBuf : SupervisedUnsupervisedBuffer :=
  SupervisedUnsupervisedBuffer.init 2 3 3 "supervised"

def clockBuf1 : SupervisedUnsupervisedBuffer :=
  (clockBuf.buffer_unsupervised [] 0 5 1).1

/-- Counterexample to C6 as stated: after a call with
`current_timestamp = 5` the unsupervised clock is `5`; a following call
with `current_timestamp = 2` sets it to `2 < 5`, so the clock is not
monotone for arbitrary `current_timestamp` arguments. -/
theorem clocks_not_monotone_counterexample :
    clockBuf1.unsupervised_active_timestamp = 5 ∧
    ((clockBuf1.buffer_unsupervised [] 0 2 1).1).unsupervised_active_timestamp
      = 2 ∧
    ¬((5 : Int) ≤ 2) :=
  ⟨rfl, rfl, by decide⟩

/-- Witness for the amended C6 at concrete values. -/
theorem clocks_increment_or_jump_witness :
    (5 : Int) ≠ -1 ∧
    ((clockBuf.buffer_unsupervised [] 0 (-1) 1).1).unsupervised_active_timestamp
      = clockBuf.unsupervised_active_timestamp + 1 ∧
    ((clockBuf.buffer_unsupervised [] 0 5 1).1).unsupervised_active_timestamp
      = 5 ∧
    ((clockBuf.buffer_supervised [] 1 0 (-1) 1).1).supervised_active_timestamp
      = clockBuf.supervised_active_timestamp + 1 ∧
    ((clockBuf.buffer_supervised [] 1 0 5 1).1).supervised_active_timestamp
      = 5 :=
  ⟨by decide,
    (clocks_increment_or_jump clockBuf [] 1 0 5 1 (by decide)).1,
    (clocks_increment_or_jump clockBuf [] 1 0 5 1 (by decide)).2.1,
    (clocks_increment_or_jump clockBuf [] 1 0 5 1 (by decide)).2.2.1,
    (clocks_increment_or_jump clockBuf [] 1 0 5 1 (by decide)).2.2.2⟩

/-! ## Claim C4: unsupervised release is gated by the supervised clock -/

theorem release_buffer_released_le {b : ObservationBuffer} {t : Int} :
    ∀ i ∈ (b.release_buffer t).2, (b.heap i).seen_at ≤ t := by
  intro i hi
  rw [release_buffer_released] at hi
  simpa using List.mem_takeWhile_imp hi

theorem release_buffer_released_subset {b : ObservationBuffer} {t : Int} :
    ∀ i ∈ (b.release_buffer t).2, i ∈ b.buffer := by
  intro i hi
  rw [release_buffer_released] at hi
  exact (List.takeWhile_prefix _).subset hi

theorem release_buffer_buffer_subset {b : ObservationBuffer} {t : Int} :
    ∀ i ∈ (b.release_buffer t).1.buffer, i ∈ b.buffer := by
  intro i hi
  have hb : (b.release_buffer t).1.buffer =
      b.buffer.dropWhile (fun i => decide ((b.heap i).seen_at ≤ t)) := by
    rw [release_buffer_state]
  rw [hb] at hi
  have hsplit := List.takeWhile_append_dropWhile
    (fun i => decide ((b.heap i).seen_at ≤ t)) b.buffer
  rw [← hsplit]
  exact List.mem_append_right _ hi

theorem add_observation_facts (b : ObservationBuffer) (o : Observation)
    (t : Int) :
    (b.add_observation o t).1.next_id = b.next_id + 1 ∧
    (∀ i, i ≠ b.next_id →
      (b.add_observation o t).1.heap i = b.heap i) ∧
    (∀ i ∈ (b.add_observation o t).1.buffer,
      i ∈ b.buffer ∨ i = b.next_id) ∧
    (∀ i ∈ (b.add_observation o t).2, i ∈ b.buffer ∨ i = b.next_id) ∧
    (∀ i ∈ (b.add_observation o t).2,
      ((b.add_observation o t).1.heap i).seen_at ≤ t) := by
  set b1 : ObservationBuffer :=
    { b with
      heap := Function.update b.heap b.next_id o
      next_id := b.next_id + 1
      active_window := dequeAppend b.window_size b.active_window b.next_id
      buffer := b.buffer ++ [b.next_id] } with hb1
  have hdef : b.add_observation o t = b1.release_buffer t := rfl
  have hheap : (b1.release_buffer t).1.heap = b1.heap := by
    rw [release_buffer_state]
  have hnext : (b1.release_buffer t).1.next_id = b1.next_id := by
    rw [release_buffer_state]
  refine ⟨?_, ?_, ?_, ?_, ?_⟩
  · rw [hdef, hnext]
  · intro i hi
    rw [hdef, hheap]
    exact Function.update_noteq hi o b.heap
  · intro i hi
    rw [hdef] at hi
    have := release_buffer_buffer_subset i hi
    have hb1buf : b1.buffer = b.buffer ++ [b.next_id] := rfl
    rw [hb1buf] at this
    rcases List.mem_append.mp this with h | h
    · exact Or.inl h
    · exact Or.inr (by simpa using h)
  · intro i hi
    rw [hdef] at hi
    have := release_buffer_released_subset i hi
    have hb1buf : b1.buffer = b.buffer ++ [b.next_id] := rfl
    rw [hb1buf] at this
    rcases List.mem_append.mp this with h | h
    · exact Or.inl h
    · exact Or.inr (by simpa using h)
  · intro i hi
    rw [hdef] at hi ⊢
    rw [hheap]
    exact release_buffer_released_le i hi

theorem reset_on_drift_facts (b : ObservationBuffer) (nid d : Int) :
    (b.reset_on_drift nid d).next_id = b.next_id ∧
    (∀ i, ((b.reset_on_drift nid d).heap i).seen_at = (b.heap i).seen_at) ∧
    (∀ i, ((b.reset_on_drift nid d).heap i).is_stable = (b.heap i).is_stable) ∧
    (∀ i ∈ (b.reset_on_drift nid d).buffer, i ∈ b.buffer) := by
  set old : Nat → Bool := fun i => decide ((b.heap i).seen_at ≤ d) with hold
  have hheap : (b.reset_on_drift nid d).heap =
      relabelAll (relabelAll b.heap (b.stable_window.dropWhile old) nid)
        (b.buffer.dropWhile old) nid := rfl
  refine ⟨rfl, ?_, ?_, ?_⟩
  · intro i
    rw [hheap, relabelAll_seen_at, relabelAll_seen_at]
  · intro i
    rw [hheap, relabelAll_is_stable, relabelAll_is_stable]
  · intro i hi
    have hb : (b.reset_on_drift nid d).buffer = b.buffer.dropWhile old := rfl
    rw [hb] at hi
    have hsplit := List.takeWhile_append_dropWhile old b.buffer
    rw [← hsplit]
    exact List.mem_append_right _ hi

theorem truncLast_subset {m : Int} {l : List Nat} :
    ∀ i ∈ truncLast m l, i ∈ l := by
  intro i hi
  rw [truncLast] at hi
  by_cases h : 0 < m
  · rw [if_pos h] at hi
    exact (takeLastN_suffix _ _).subset hi
  · rw [if_neg h] at hi
    cases hi

/-- One `SupervisedUnsupervisedBuffer` call under the `"supervised"`
release strategy: the configuration is preserved, unsupervised buffer ids
stay below the allocation counter, already-allocated observations keep
their `seen_at`, every unsupervised id released by the call is logged with
the supervised clock `c` of the call and satisfies
`seen_at + supervised_buffer_timeout ≤ c`, and the accumulation list and
the collect output only hold previously-accumulated or logged ids. -/
theorem stepS_gate (sto : Int) (s : SupervisedUnsupervisedBuffer) (op : SOp)
    (hstrat : s.release_strategy = "supervised")
    (hsto : s.supervised_buffer_timeout = sto)
    (hbound : ∀ i ∈ s.unsupervised_buffer.buffer,
      i < s.unsupervised_buffer.next_id) :
    (stepS s op).1.release_strategy = "supervised" ∧
    (stepS s op).1.supervised_buffer_timeout = sto ∧
    (∀ i ∈ (stepS s op).1.unsupervised_buffer.buffer,
      i < (stepS s op).1.unsupervised_buffer.next_id) ∧
    s.unsupervised_buffer.next_id ≤
      (stepS s op).1.unsupervised_buffer.next_id ∧
    (∀ i, i < s.unsupervised_buffer.next_id →
      ((stepS s op).1.unsupervised_buffer.heap i).seen_at =
        (s.unsupervised_buffer.heap i).seen_at) ∧
    (∀ pr ∈ (stepS s op).2.1,
      pr.1 < (stepS s op).1.unsupervised_buffer.next_id ∧
      ((stepS s op).1.unsupervised_buffer.heap pr.1).seen_at + sto ≤ pr.2) ∧
    (∀ i ∈ (stepS s op).1.stable_unsupervised,
      i ∈ s.stable_unsupervised ∨ ∃ c, (i, c) ∈ (stepS s op).2.1) ∧
    (∀ i ∈ (stepS s op).2.2,
      i ∈ s.stable_unsupervised ∨ ∃ c, (i, c) ∈ (stepS s op).2.1) := by
  cases op with
  | bufU x sid ct w =>
    set ts := (if ct = -1 then s.unsupervised_active_timestamp + 1 else ct)
      with hts
    have hthr : ({ s with unsupervised_active_timestamp := ts } :
        SupervisedUnsupervisedBuffer).get_unsupervised_timestamps.2 =
        s.supervised_active_timestamp - sto := by
      rw [SupervisedUnsupervisedBuffer.get_unsupervised_timestamps, if_neg]
      · show s.supervised_active_timestamp - s.supervised_buffer_timeout = _
        rw [hsto]
      · show s.release_strategy ∉ _
        rw [hstrat]
        decide
    set o : Observation := Observation.make x none ts sid w with ho
    set thr := ({ s with unsupervised_active_timestamp := ts } :
      SupervisedUnsupervisedBuffer).get_unsupervised_timestamps.2 with hthrdef
    have hfacts := add_observation_facts s.unsupervised_buffer o thr
    have hu1 : (stepS s (SOp.bufU x sid ct w)).1.unsupervised_buffer =
        (s.unsupervised_buffer.add_observation o thr).1 := rfl
    have hu2 : (stepS s (SOp.bufU x sid ct w)).2.1 =
        (s.unsupervised_buffer.add_observation o thr).2.map
          (fun i => (i, s.supervised_active_timestamp)) := rfl
    have hu3 : (stepS s (SOp.bufU x sid ct w)).1.stable_unsupervised =
        s.stable_unsupervised ++
          (s.unsupervised_buffer.add_observation o thr).2 := rfl
    have hu4 : (stepS s (SOp.bufU x sid ct w)).2.2 = [] := rfl
    have hmemlt : ∀ i ∈ (s.unsupervised_buffer.add_observation o thr).2,
        i < (s.unsupervised_buffer.add_observation o thr).1.next_id := by
      intro i hi
      rw [hfacts.1]
      rcases hfacts.2.2.2.1 i hi with h | h
      · exact Nat.lt_succ_of_lt (hbound i h)
      · omega
    refine ⟨hstrat, hsto, ?_, ?_, ?_, ?_, ?_, ?_⟩
    · intro i hi
      rw [hu1] at hi ⊢
      rw [hfacts.1]
      rcases hfacts.2.2.1 i hi with h | h
      · exact Nat.lt_succ_of_lt (hbound i h)
      · omega
    · rw [hu1, hfacts.1]
      omega
    · intro i hlt
      rw [hu1, hfacts.2.1 i (Nat.ne_of_lt hlt)]
    · intro pr hpr
      rw [hu2] at hpr
      rcases List.mem_map.mp hpr with ⟨i, hi, rfl⟩
      refine ⟨by rw [hu1]; exact hmemlt i hi, ?_⟩
      have hle := hfacts.2.2.2.2 i hi
      show ((s.unsupervised_buffer.add_observation o thr).1.heap i).seen_at
        + sto ≤ s.supervised_active_timestamp
      omega
    · intro i hi
      rw [hu3] at hi
      rcases List.mem_append.mp hi with h | h
      · exact Or.inl h
      · refine Or.inr ⟨s.supervised_active_timestamp, ?_⟩
        rw [hu2]
        exact List.mem_map_of_mem _ h
    · intro i hi
      rw [hu4] at hi
      cases hi
  | bufS x y sid ct w =>
    have hu1 : (stepS s (SOp.bufS x y sid ct w)).1.unsupervised_buffer =
        s.unsupervised_buffer := rfl
    have hu3 : (stepS s (SOp.bufS x y sid ct w)).1.stable_unsupervised =
        s.stable_unsupervised := rfl
    refine ⟨hstrat, hsto, ?_, ?_, ?_, ?_, ?_, ?_⟩
    · intro i hi
      rw [hu1] at hi ⊢
      exact hbound i hi
    · rw [hu1]
    · intro i _
      rw [hu1]
    · intro pr hpr
      cases hpr
    · intro i hi
      rw [hu3] at hi
      exact Or.inl hi
    · intro i hi
      cases hi
  | collectU =>
    have hthr : s.get_unsupervised_timestamps.2 =
        s.supervised_active_timestamp - sto := by
      rw [SupervisedUnsupervisedBuffer.get_unsupervised_timestamps, if_neg]
      · show s.supervised_active_timestamp - s.supervised_buffer_timeout = _
        rw [hsto]
      · rw [hstrat]
        decide
    set thr := s.get_unsupervised_timestamps.2 with hthrdef
    have hu1 : (stepS s SOp.collectU).1.unsupervised_buffer =
        (s.unsupervised_buffer.release_buffer thr).1 := rfl
    have hu2 : (stepS s SOp.collectU).2.1 =
        (s.unsupervised_buffer.release_buffer thr).2.map
          (fun i => (i, s.supervised_active_timestamp)) := rfl
    have hu3 : (stepS s SOp.collectU).1.stable_unsupervised = [] := rfl
    have hu4 : (stepS s SOp.collectU).2.2 =
        s.stable_unsupervised ++
          (s.unsupervised_buffer.release_buffer thr).2 := rfl
    have hnext : (s.unsupervised_buffer.release_buffer thr).1.next_id =
        s.unsupervised_buffer.next_id := by
      rw [release_buffer_state]
    have hheap : (s.unsupervised_buffer.release_buffer thr).1.heap =
        s.unsupervised_buffer.heap := by
      rw [release_buffer_state]
    refine ⟨hstrat, hsto, ?_, ?_, ?_, ?_, ?_, ?_⟩
    · intro i hi
      rw [hu1] at hi ⊢
      rw [hnext]
      exact hbound i (release_buffer_buffer_subset i hi)
    · rw [hu1, hnext]
    · intro i _
      rw [hu1, hheap]
    · intro pr hpr
      rw [hu2] at hpr
      rcases List.mem_map.mp hpr with ⟨i, hi, rfl⟩
      refine ⟨?_, ?_⟩
      · rw [hu1, hnext]
        exact hbound i (release_buffer_released_subset i hi)
      · have hle := release_buffer_released_le i hi
        show ((s.unsupervised_buffer.release_buffer thr).1.heap i).seen_at
          + sto ≤ s.supervised_active_timestamp
        rw [hheap]
        omega
    · intro i hi
      rw [hu3] at hi
      cases hi
    · intro i hi
      rw [hu4] at hi
      rcases List.mem_append.mp hi with h | h
      · exact Or.inl h
      · refine Or.inr ⟨s.supervised_active_timestamp, ?_⟩
        rw [hu2]
        exact List.mem_map_of_mem _ h
  | collectS =>
    have hu1 : (stepS s SOp.collectS).1.unsupervised_buffer =
        s.unsupervised_buffer := rfl
    have hu3 : (stepS s SOp.collectS).1.stable_unsupervised =
        s.stable_unsupervised := rfl
    refine ⟨hstrat, hsto, ?_, ?_, ?_, ?_, ?_, ?_⟩
    · intro i hi
      rw [hu1] at hi ⊢
      exact hbound i hi
    · rw [hu1]
    · intro i _
      rw [hu1]
    · intro pr hpr
      cases hpr
    · intro i hi
      rw [hu3] at hi
      exact Or.inl hi
    · intro i hi
      cases hi
  | reset nid d =>
    have hfacts := reset_on_drift_facts s.unsupervised_buffer nid
      (if d = -1
        then s.get_unsupervised_timestamps.1 -
          (if s.keep_active_window_on_reset then (s.window_size : Int) else 0)
        else d)
    have hu1 : (stepS s (SOp.reset nid d)).1.unsupervised_buffer =
        s.unsupervised_buffer.reset_on_drift nid
          (if d = -1
            then s.get_unsupervised_timestamps.1 -
              (if s.keep_active_window_on_reset then (s.window_size : Int)
                else 0)
            else d) := rfl
    have hu3 : (stepS s (SOp.reset nid d)).1.stable_unsupervised =
        truncLast (s.get_unsupervised_timestamps.2 -
          (if d = -1
            then s.get_unsupervised_timestamps.1 -
              (if s.keep_active_window_on_reset then (s.window_size : Int)
                else 0)
            else d)) s.stable_unsupervised := rfl
    refine ⟨hstrat, hsto, ?_, ?_, ?_, ?_, ?_, ?_⟩
    · intro i hi
      rw [hu1] at hi ⊢
      rw [hfacts.1]
      exact hbound i (hfacts.2.2.2 i hi)
    · rw [hu1, hfacts.1]
    · intro i _
      rw [hu1, hfacts.2.1]
    · intro pr hpr
      cases hpr
    · intro i hi
      rw [hu3] at hi
      exact Or.inl (truncLast_subset i hi)
    · intro i hi
      cases hi

theorem runS_gate (sto : Int) :
    ∀ (ops : List SOp) (s : SupervisedUnsupervisedBuffer),
      s.release_strategy = "supervised" →
      s.supervised_buffer_timeout = sto →
      (∀ i ∈ s.unsupervised_buffer.buffer,
        i < s.unsupervised_buffer.next_id) →
      (runS s ops).1.release_strategy = "supervised" ∧
      (runS s ops).1.supervised_buffer_timeout = sto ∧
      (∀ i ∈ (runS s ops).1.unsupervised_buffer.buffer,
        i < (runS s ops).1.unsupervised_buffer.next_id) ∧
      s.unsupervised_buffer.next_id ≤
        (runS s ops).1.unsupervised_buffer.next_id ∧
      (∀ i, i < s.unsupervised_buffer.next_id →
        ((runS s ops).1.unsupervised_buffer.heap i).seen_at =
          (s.unsupervised_buffer.heap i).seen_at) ∧
      (∀ pr ∈ (runS s ops).2.1,
        pr.1 < (runS s ops).1.unsupervised_buffer.next_id ∧
        ((runS s ops).1.unsupervised_buffer.heap pr.1).seen_at + sto ≤ pr.2) ∧
      (∀ i ∈ (runS s ops).1.stable_unsupervised,
        i ∈ s.stable_unsupervised ∨ ∃ c, (i, c) ∈ (runS s ops).2.1) ∧
      (∀ i ∈ (runS s ops).2.2,
        i ∈ s.stable_unsupervised ∨ ∃ c, (i, c) ∈ (runS s ops).2.1)
  | [], s, hstrat, hsto, hbound => by
    refine ⟨hstrat, hsto, hbound, Nat.le_refl _, fun i _ => rfl, ?_, ?_, ?_⟩
    · intro pr hpr
      cases hpr
    · intro i hi
      exact Or.inl hi
    · intro i hi
      cases hi
  | op :: ops, s, hstrat, hsto, hbound => by
    have hs := stepS_gate sto s op hstrat hsto hbound
    have hr := runS_gate sto ops (stepS s op).1 hs.1 hs.2.1 hs.2.2.1
    have h1 : (runS s (op :: ops)).1 = (runS (stepS s op).1 ops).1 := rfl
    have h2 : (runS s (op :: ops)).2.1 =
        (stepS s op).2.1 ++ (runS (stepS s op).1 ops).2.1 := rfl
    have h3 : (runS s (op :: ops)).2.2 =
        (stepS s op).2.2 ++ (runS (stepS s op).1 ops).2.2 := rfl
    have hnextmono : s.unsupervised_buffer.next_id ≤
        (runS (stepS s op).1 ops).1.unsupervised_buffer.next_id :=
      le_trans hs.2.2.2.1 hr.2.2.2.1
    have hseen : ∀ i, i < s.unsupervised_buffer.next_id →
        ((runS (stepS s op).1 ops).1.unsupervised_buffer.heap i).seen_at =
          (s.unsupervised_buffer.heap i).seen_at := by
      intro i hlt
      rw [hr.2.2.2.2.1 i (lt_of_lt_of_le hlt hs.2.2.2.1), hs.2.2.2.2.1 i hlt]
    refine ⟨?_, ?_, ?_, ?_, ?_, ?_, ?_, ?_⟩
    · rw [h1]
      exact hr.1
    · rw [h1]
      exact hr.2.1
    · rw [h1]
      exact hr.2.2.1
    · rw [h1]
      exact hnextmono
    · rw [h1]
      exact hseen
    · intro pr hpr
      rw [h2] at hpr
      rw [h1]
      rcases List.mem_append.mp hpr with h | h
      · have hstep := hs.2.2.2.2.2.1 pr h
        refine ⟨lt_of_lt_of_le hstep.1 hr.2.2.2.1, ?_⟩
        rw [hr.2.2.2.2.1 pr.1 hstep.1]
        exact hstep.2
      · exact hr.2.2.2.2.2.1 pr h
    · intro i hi
      rw [h1] at hi
      rw [h2]
      rcases hr.2.2.2.2.2.2.1 i hi with h | h
      · rcases hs.2.2.2.2.2.2.1 i h with h' | ⟨c, hc⟩
        · exact Or.inl h'
        · exact Or.inr ⟨c, List.mem_append_left _ hc⟩
      · rcases h with ⟨c, hc⟩
        exact Or.inr ⟨c, List.mem_append_right _ hc⟩
    · intro i hi
      rw [h3] at hi
      rw [h2]
      rcases List.mem_append.mp hi with h | h
      · rcases hs.2.2.2.2.2.2.2 i h with h' | ⟨c, hc⟩
        · exact Or.inl h'
        · exact Or.inr ⟨c, List.mem_append_left _ hc⟩
      · rcases hr.2.2.2.2.2.2.2 i h with h' | ⟨c, hc⟩
        · rcases hs.2.2.2.2.2.2.1 i h' with h'' | ⟨c, hc⟩
          · exact Or.inl h''
          · exact Or.inr ⟨c, List.mem_append_left _ hc⟩
        · exact Or.inr ⟨c, List.mem_append_right _ hc⟩

/-- The conclusion of claim C4, for a fresh
`SupervisedUnsupervisedBuffer` with `release_strategy = "supervised"` and
an arbitrary interleaving of calls: every unsupervised observation ever
released is logged together with the supervised clock value `c` at the
moment of its release and satisfies
`seen_at + supervised_buffer_timeout ≤ c` — i.e. it is released only once
the supervised clock has advanced to (at least) its timestamp plus the
supervised timeout, and never based on the unsupervised clock; and every
id in `stable_unsupervised` or in a `collect_stable_unsupervised` output
is one of those logged releases. -/
def SupervisedGateSpec (ws : Nat) (uto sto : Int) (ops : List SOp) : Prop :=
  (∀ pr ∈ (runS (SupervisedUnsupervisedBuffer.init ws uto sto "supervised")
      ops).2.1,
    ((runS (SupervisedUnsupervisedBuffer.init ws uto sto "supervised")
        ops).1.unsupervised_buffer.heap pr.1).seen_at + sto ≤ pr.2) ∧
  (∀ i ∈ (runS (SupervisedUnsupervisedBuffer.init ws uto sto "supervised")
      ops).1.stable_unsupervised,
    ∃ c, (i, c) ∈ (runS (SupervisedUnsupervisedBuffer.init ws uto sto
      "supervised") ops).2.1) ∧
  (∀ i ∈ (runS (SupervisedUnsupervisedBuffer.init ws uto sto "supervised")
      ops).2.2,
    ∃ c, (i, c) ∈ (runS (SupervisedUnsupervisedBuffer.init ws uto sto
      "supervised") ops).2.1)

/-- C4: under `release_strategy = "supervised"`, an unsupervised
observation with timestamp `t` is released only when the supervised clock
has advanced to `t + supervised_buffer_timeout` or beyond (the release
threshold is `supervised_active_timestamp - supervised_buffer_timeout`,
which references the supervised clock only), for every interleaving of
`buffer_supervised`, `buffer_unsupervised` and `collect_stable_*` calls
(and even `reset_on_drift` calls). -/
theorem supervised_release_gated_by_supervised_clock (ws : Nat)
    (uto sto : Int) (ops : List SOp) : SupervisedGateSpec ws uto sto ops := by
  have h := runS_gate sto ops
    (SupervisedUnsupervisedBuffer.init ws uto sto "supervised") rfl rfl
    (by intro i hi; cases hi)
  refine ⟨?_, ?_, ?_⟩
  · intro pr hpr
    exact (h.2.2.2.2.2.1 pr hpr).2
  · intro i hi
    rcases h.2.2.2.2.2.2.1 i hi with h' | h'
    · cases h'
    · exact h'
  · intro i hi
    rcases h.2.2.2.2.2.2.2 i hi with h' | h'
    · cases h'
    · exact h'

/-! ## Claim C10: release mutates nothing; `is_stable` stays `False` -/

theorem add_observation_heap_new (b : ObservationBuffer) (o : Observation)
    (t : Int) : (b.add_observation o t).1.heap b.next_id = o := by
  set b1 : ObservationBuffer :=
    { b with
      heap := Function.update b.heap b.next_id o
      next_id := b.next_id + 1
      active_window := dequeAppend b.window_size b.active_window b.next_id
      buffer := b.buffer ++ [b.next_id] } with hb1
  have hdef : b.add_observation o t = b1.release_buffer t := rfl
  have hheap : (b1.release_buffer t).1.heap = b1.heap := by
    rw [release_buffer_state]
  rw [hdef, hheap]
  exact Function.update_same b.next_id o b.heap

/-- Both tracks' allocated observations still carry `is_stable = False`. -/
def StableFlagInv (s : SupervisedUnsupervisedBuffer) : Prop :=
  (∀ i, i < s.unsupervised_buffer.next_id →
    (s.unsupervised_buffer.heap i).is_stable = false) ∧
  (∀ i, i < s.supervised_buffer.next_id →
    (s.supervised_buffer.heap i).is_stable = false)

theorem addObs_stable_flag {b : ObservationBuffer} {o : Observation} {t : Int}
    (ho : o.is_stable = false)
    (hb : ∀ i, i < b.next_id → (b.heap i).is_stable = false) :
    ∀ i, i < (b.add_observation o t).1.next_id →
      ((b.add_observation o t).1.heap i).is_stable = false := by
  intro i hi
  rw [(add_observation_facts b o t).1] at hi
  by_cases hieq : i = b.next_id
  · subst hieq
    rw [add_observation_heap_new]
    exact ho
  · rw [(add_observation_facts b o t).2.1 i hieq]
    exact hb i (by omega)

theorem stepS_stable_flag (s : SupervisedUnsupervisedBuffer) (op : SOp)
    (h : StableFlagInv s) : StableFlagInv (stepS s op).1 := by
  cases op with
  | bufU x sid ct w =>
    refine ⟨?_, h.2⟩
    exact addObs_stable_flag rfl h.1
  | bufS x y sid ct w =>
    refine ⟨h.1, ?_⟩
    exact addObs_stable_flag rfl h.2
  | collectU =>
    refine ⟨?_, h.2⟩
    intro i hi
    have hheap : (stepS s SOp.collectU).1.unsupervised_buffer.heap =
        s.unsupervised_buffer.heap := by
      show (s.unsupervised_buffer.release_buffer _).1.heap = _
      rw [release_buffer_state]
    have hnext : (stepS s SOp.collectU).1.unsupervised_buffer.next_id =
        s.unsupervised_buffer.next_id := by
      show (s.unsupervised_buffer.release_buffer _).1.next_id = _
      rw [release_buffer_state]
    rw [hheap]
    rw [hnext] at hi
    exact h.1 i hi
  | collectS =>
    refine ⟨h.1, ?_⟩
    intro i hi
    have hheap : (stepS s SOp.collectS).1.supervised_buffer.heap =
        s.supervised_buffer.heap := by
      show (s.supervised_buffer.release_buffer _).1.heap = _
      rw [release_buffer_state]
    have hnext : (stepS s SOp.collectS).1.supervised_buffer.next_id =
        s.supervised_buffer.next_id := by
      show (s.supervised_buffer.release_buffer _).1.next_id = _
      rw [release_buffer_state]
    rw [hheap]
    rw [hnext] at hi
    exact h.2 i hi
  | reset nid d =>
    constructor
    · intro i hi
      have hfacts := reset_on_drift_facts s.unsupervised_buffer nid
        (if d = -1
          then s.get_unsupervised_timestamps.1 -
            (if s.keep_active_window_on_reset then (s.window_size : Int)
              else 0)
          else d)
      have hu : (stepS s (SOp.reset nid d)).1.unsupervised_buffer =
          s.unsupervised_buffer.reset_on_drift nid
            (if d = -1
              then s.get_unsupervised_timestamps.1 -
                (if s.keep_active_window_on_reset then (s.window_size : Int)
                  else 0)
              else d) := rfl
      rw [hu] at hi ⊢
      rw [hfacts.2.2.1 i]
      rw [hfacts.1] at hi
      exact h.1 i hi
    · intro i hi
      have hfacts := reset_on_drift_facts s.supervised_buffer nid
        (if d = -1
          then s.get_supervised_timestamps.1 -
            (if s.keep_active_window_on_reset then (s.window_size : Int)
              else 0)
          else d)
      have hu : (stepS s (SOp.reset nid d)).1.supervised_buffer =
          s.supervised_buffer.reset_on_drift nid
            (if d = -1
              then s.get_supervised_timestamps.1 -
                (if s.keep_active_window_on_reset then (s.window_size : Int)
                  else 0)
              else d) := rfl
      rw [hu] at hi ⊢
      rw [hfacts.2.2.1 i]
      rw [hfacts.1] at hi
      exact h.2 i hi

theorem runS_stable_flag :
    ∀ (ops : List SOp) (s : SupervisedUnsupervisedBuffer),
      StableFlagInv s → StableFlagInv (runS s ops).1
  | [], _, h => h
  | op :: ops, s, h =>
    runS_stable_flag ops (stepS s op).1 (stepS_stable_flag s op h)

/-- C10: releasing an observation never mutates it — `release_buffer`
leaves the whole heap of stored observations unchanged, so every field of
a released observation is identical before and after release — and no
operation of `ObservationBuffer` or `SupervisedUnsupervisedBuffer` ever
sets `is_stable` to `True`: after any call sequence on a fresh
`SupervisedUnsupervisedBuffer` (any strategy), every observation ever
constructed in either track still has `is_stable = False` as initialized
by `Observation.__init__`. -/
theorem release_never_mutates_and_is_stable_stays_false :
    (∀ (b : ObservationBuffer) (t : Int),
      (b.release_buffer t).1.heap = b.heap) ∧
    (∀ (ws : Nat) (uto sto : Int) (strat : String) (ops : List SOp),
      (∀ i, i < (runS (SupervisedUnsupervisedBuffer.init ws uto sto strat)
          ops).1.unsupervised_buffer.next_id →
        ((runS (SupervisedUnsupervisedBuffer.init ws uto sto strat)
            ops).1.unsupervised_buffer.heap i).is_stable = false) ∧
      (∀ i, i < (runS (SupervisedUnsupervisedBuffer.init ws uto sto strat)
          ops).1.supervised_buffer.next_id →
        ((runS (SupervisedUnsupervisedBuffer.init ws uto sto strat)
            ops).1.supervised_buffer.heap i).is_stable = false)) := by
  constructor
  · intro b t
    rw [release_buffer_state]
  · intro ws uto sto strat ops
    exact runS_stable_flag ops _
      ⟨fun i hi => absurd hi (Nat.not_lt_zero i),
        fun i hi => absurd hi (Nat.not_lt_zero i)⟩

/-- Witness for C10 at a concrete run: the second conjunct's bound
`i < next_id` is discharged at `i = 0` after one buffering call. -/
theorem release_never_mutates_witness :
    ((runB (ObservationBuffer.init 2) demoOps).1.release_buffer 2).1.heap =
      (runB (ObservationBuffer.init 2) demoOps).1.heap ∧
    0 < (runS (SupervisedUnsupervisedBuffer.init 2 3 3 "supervised")
        [SOp.bufU [] 0 (-1) 1]).1.unsupervised_buffer.next_id ∧
    ((runS (SupervisedUnsupervisedBuffer.init 2 3 3 "supervised")
        [SOp.bufU [] 0 (-1) 1]).1.unsupervised_buffer.heap 0).is_stable
      = false :=
  ⟨release_never_mutates_and_is_stable_stays_false.1 _ 2,
    by decide,
    (release_never_mutates_and_is_stable_stays_false.2 2 3 3 "supervised"
      [SOp.bufU [] 0 (-1) 1]).1 0 (by decide)⟩

end StreamSelect
